import Mathlib

set_option maxRecDepth 8000

/-!
Verification of the encrypted-vault storage engine and the attribute-based
key-recovery protocol of the offline password safe.

The development shallow-embeds the TypeScript sources:

* `Enc`      — `src/lib/encryption.ts` (`EncryptionService.encrypt` / `decrypt`);
* `Storage`  — `src/lib/passwordStorage.ts` (`PasswordStorageService`);
* `Recovery` — the two Supabase edge functions (`store-aadhaar-recovery`,
  `verify-aadhaar-recovery`);
* `Aadhaar`  — `src/lib/aadhaarService.ts` (enhanced extraction pipeline).

External library primitives that the sources call (AES block cipher, PBKDF2,
bcrypt, the JS regex engine, JSON and Base64 codecs) are not code of this
repository; they are modelled by explicit executable stand-ins (documented at
each definition) that preserve exactly the interface properties the code relies
on: the block cipher is an invertible keyed block map, hashing is a salted
injective encoding compared by re-hashing, Base64 and JSON are bijective
codecs, and the regex engine is an explicit parameter producing match lists.
All state (the localStorage cell, the recovery table row) is passed explicitly,
and clock reads (`Date.now()`) are explicit `now` parameters.
-/

/-! ## Character and string utilities (models of the JS string primitives) -/

/-- ASCII whitespace test covering the whitespace characters relevant to this
code base (model of the JS `\s` class on the inputs that occur). -/
def isWsChar (c : Char) : Bool := c = ' ' || c = '\t' || c = '\n' || c = '\r'

/-- List-level trim: drop leading and trailing whitespace. -/
def trimList (cs : List Char) : List Char :=
  ((cs.dropWhile isWsChar).reverse.dropWhile isWsChar).reverse

/-- Model of `String.prototype.trim`. -/
def jsTrim (s : String) : String := String.mk (trimList s.data)

/-- Model of `String.prototype.toLowerCase` (ASCII; the Devanagari keywords in
the sources are unaffected by case mapping in JS as well). -/
def jsLower (s : String) : String := String.mk (s.data.map Char.toLower)

/-- Does the second list occur at the head of the first? -/
def startsWithL : List Char → List Char → Bool
  | _, [] => true
  | [], _ :: _ => false
  | c :: cs, d :: ds => c = d && startsWithL cs ds

/-- Substring occurrence test (model of `String.prototype.includes`). -/
def hasSub : List Char → List Char → Bool
  | [], needle => needle.isEmpty
  | c :: rest, needle => startsWithL (c :: rest) needle || hasSub rest needle

/-- Model of `str.replace(/\s/g, '')`. -/
def stripSpaces (s : String) : String := String.mk (s.data.filter (fun c => !isWsChar c))

/-- Twelve-digit test: model of `/^\d{12}$/.test s`. -/
def digits12 (s : String) : Bool :=
  s.data.length == 12 && s.data.all (fun c => c.isDigit)

/-! ## Byte-level codec

The sources move text through CryptoJS `WordArray`s. A `WordArray` is modelled
as its byte sequence (`List Nat`, each entry `< 256`); Base64 transport
(`toString(Base64)` / `enc.Base64.parse`) is a bijection between byte
sequences and strings and is modelled as the identity on bytes. The text codec
(`enc.Utf8`) is modelled as a fixed-width four-byte big-endian rendering of the
code points — like UTF-8 it is a bijective encoding of strings into bytes, and
the code relies on nothing beyond that bijectivity. -/

/-- Four-byte big-endian encoding of one character's code point. -/
def charBytes (c : Char) : List Nat :=
  [c.toNat / 16777216, c.toNat / 65536 % 256, c.toNat / 256 % 256, c.toNat % 256]

/-- Encode a string as bytes. -/
def strToBytes (s : String) : List Nat := (s.data.map charBytes).flatten

/-- Decode bytes back to characters four at a time. The decoder is partial,
like the library's: a group that is not a valid code point, or a trailing
incomplete group, fails the whole decode (CryptoJS' Utf8 stringify throws
`Error('Malformed UTF-8 data')` on bytes that are not a valid encoding). -/
def bytesToCharsM : List Nat → Option (List Char)
  | [] => some []
  | a :: b :: c :: d :: rest =>
      let n := a * 16777216 + b * 65536 + c * 256 + d
      if Nat.isValidChar n then (bytesToCharsM rest).map (fun cs => Char.ofNat n :: cs)
      else none
  | _ => none

/-- Model of `decrypted.toString(CryptoJS.enc.Utf8)`: a partial decoder,
`none` standing for the library's thrown 'Malformed UTF-8 data'. -/
def utf8Stringify (bs : List Nat) : Option String := (bytesToCharsM bs).map String.mk

theorem char_toNat_lt (c : Char) : c.toNat < 16777216 := by
  have h := c.valid
  rcases h with h | ⟨_, h2⟩
  · have : c.val.toNat < 55296 := h
    simp only [Char.toNat]; omega
  · have : c.val.toNat < 1114112 := h2
    simp only [Char.toNat]; omega

theorem charBytes_lt (c : Char) : ∀ b ∈ charBytes c, b < 256 := by
  have hlt := char_toNat_lt c
  have h0 : c.toNat / 16777216 = 0 := Nat.div_eq_of_lt hlt
  intro b hb
  simp only [charBytes, List.mem_cons, List.not_mem_nil, or_false] at hb
  rcases hb with rfl | rfl | rfl | rfl
  · omega
  · exact Nat.mod_lt _ (by omega)
  · exact Nat.mod_lt _ (by omega)
  · exact Nat.mod_lt _ (by omega)

theorem bytesToCharsM_charBytes (c : Char) (rest : List Nat) :
    bytesToCharsM (charBytes c ++ rest) = (bytesToCharsM rest).map (fun cs => c :: cs) := by
  have hlt := char_toNat_lt c
  have h0 : c.toNat / 16777216 = 0 := Nat.div_eq_of_lt hlt
  have e1 : c.toNat / 256 % 256 = c.toNat % 65536 / 256 := by
    have h := Nat.mod_mul_right_div_self c.toNat 256 256
    norm_num at h
    omega
  have e2 : c.toNat % 256 = c.toNat % 65536 % 256 :=
    (Nat.mod_mod_of_dvd c.toNat (by norm_num)).symm
  have key : c.toNat / 16777216 * 16777216 + c.toNat / 65536 % 256 * 65536 +
      c.toNat / 256 % 256 * 256 + c.toNat % 256 = c.toNat := by
    have h1 : c.toNat / 65536 % 256 = c.toNat / 65536 := Nat.mod_eq_of_lt (by omega)
    have d1 := Nat.div_add_mod c.toNat 65536
    have d2 := Nat.div_add_mod (c.toNat % 65536) 256
    rw [h0, h1]
    omega
  have hvalid : Nat.isValidChar c.toNat := c.valid
  simp only [charBytes, List.cons_append, List.nil_append, bytesToCharsM, key,
    if_pos hvalid, Char.ofNat_toNat]
  rfl

theorem bytesToCharsM_strToBytes (cs : List Char) :
    bytesToCharsM ((cs.map charBytes).flatten) = some cs := by
  induction cs with
  | nil => rfl
  | cons c rest ih =>
      simp only [List.map_cons, List.flatten_cons]
      rw [bytesToCharsM_charBytes, ih]
      rfl

theorem utf8Stringify_strToBytes (s : String) : utf8Stringify (strToBytes s) = some s := by
  simp only [utf8Stringify, strToBytes, bytesToCharsM_strToBytes, Option.map_some']

theorem strToBytes_lt (s : String) : ∀ b ∈ strToBytes s, b < 256 := by
  intro b hb
  simp only [strToBytes, List.mem_flatten] at hb
  obtain ⟨l, hl, hbl⟩ := hb
  simp only [List.mem_map] at hl
  obtain ⟨c, _, rfl⟩ := hl
  exact charBytes_lt c b hbl

theorem strToBytes_length (s : String) : (strToBytes s).length = 4 * s.data.length := by
  simp only [strToBytes]
  induction s.data with
  | nil => rfl
  | cons c rest ih =>
      simp only [List.map_cons, List.flatten_cons, List.length_append, ih, charBytes,
        List.length_cons, List.length_nil]
      omega

/-! ## AES-CBC with PKCS#7 padding

CryptoJS performs PBKDF2 key derivation, then AES in CBC mode with PKCS#7
padding. The AES block primitive is external library code; it is modelled as
an invertible keyed transformation on 16-byte blocks. The CBC chaining, the
padding, and (crucially) the padding removal — CryptoJS' `Pkcs7.unpad`
subtracts the last byte's value from `sigBytes` without validating it — are
modelled exactly. -/

/-- Deterministic model of the external PBKDF2 derivation: a fixed map from
(secret, salt) to a derived key value; the code passes the derived value
straight to the cipher and uses no other property of it. -/
def pbkdf2 (key salt : String) : Nat :=
  (key.data ++ '|' :: salt.data).foldl (fun a c => (a * 131 + c.toNat + 7) % 4294967296) 1

/-- PKCS#7 padding to the 16-byte block size. -/
def pkcs7pad (bs : List Nat) : List Nat :=
  bs ++ List.replicate (16 - bs.length % 16) (16 - bs.length % 16)

/-- Byte-wise xor of two blocks. -/
def xorBlock (a b : List Nat) : List Nat := List.zipWith (fun x y => x ^^^ y) a b

/-- Model of the external AES block encryption: an invertible keyed
transformation of a 16-byte block. -/
def blockEnc (k : Nat) (b : List Nat) : List Nat := b.map (fun x => (x + k) % 256)

/-- Inverse of `blockEnc` (model of the AES block decryption). -/
def blockDec (k : Nat) (b : List Nat) : List Nat :=
  b.map (fun x => (x + (256 - k % 256)) % 256)

/-- Split a byte list into complete 16-byte blocks, discarding a trailing
incomplete block (fuel-indexed so that it reduces by evaluation). -/
def chunk16Fuel : Nat → List Nat → List (List Nat)
  | 0, _ => []
  | fuel + 1, bs => if 16 ≤ bs.length then bs.take 16 :: chunk16Fuel fuel (bs.drop 16) else []

/-- Split a byte list into its complete 16-byte blocks. -/
def chunk16 (bs : List Nat) : List (List Nat) := chunk16Fuel bs.length bs

/-- CBC encryption over a block list, chaining from `prev`. -/
def cbcEncBlocks (k : Nat) : List Nat → List (List Nat) → List (List Nat)
  | _, [] => []
  | prev, b :: rest =>
      let c := blockEnc k (xorBlock b prev)
      c :: cbcEncBlocks k c rest

/-- CBC decryption over a block list, chaining from `prev`. -/
def cbcDecBlocks (k : Nat) : List Nat → List (List Nat) → List (List Nat)
  | _, [] => []
  | prev, c :: rest => xorBlock (blockDec k c) prev :: cbcDecBlocks k c rest

/-- CBC-encrypt a byte sequence under derived key `k` and IV `iv`. -/
def cbcEncrypt (k : Nat) (iv bs : List Nat) : List Nat :=
  (cbcEncBlocks k iv (chunk16 bs)).flatten

/-- CBC-decrypt a byte sequence under derived key `k` and IV `iv`. -/
def cbcDecrypt (k : Nat) (iv bs : List Nat) : List Nat :=
  (cbcDecBlocks k iv (chunk16 bs)).flatten

theorem chunk16Fuel_congr (n : Nat) : ∀ (bs : List Nat), bs.length ≤ n →
    ∀ f1 f2, bs.length ≤ f1 → bs.length ≤ f2 → chunk16Fuel f1 bs = chunk16Fuel f2 bs := by
  induction n using Nat.strong_induction_on with
  | _ n ih =>
      intro bs hn f1 f2 h1 h2
      match f1, f2 with
      | 0, 0 => rfl
      | 0, f2 + 1 =>
          have hbs : bs = [] := List.length_eq_zero.mp (Nat.le_zero.mp h1)
          subst hbs; simp [chunk16Fuel]
      | f1 + 1, 0 =>
          have hbs : bs = [] := List.length_eq_zero.mp (Nat.le_zero.mp h2)
          subst hbs; simp [chunk16Fuel]
      | f1 + 1, f2 + 1 =>
          simp only [chunk16Fuel]
          by_cases h16 : 16 ≤ bs.length
          · simp only [h16, if_true]
            congr 1
            have hd : (bs.drop 16).length = bs.length - 16 := List.length_drop 16 bs
            exact ih (bs.length - 16) (by omega) (bs.drop 16) (by omega) f1 f2
              (by omega) (by omega)
          · simp [h16]

theorem chunk16Fuel_stable (fuel : Nat) (bs : List Nat) (h : bs.length ≤ fuel) :
    chunk16Fuel fuel bs = chunk16 bs :=
  chunk16Fuel_congr bs.length bs le_rfl fuel bs.length h le_rfl

theorem chunk16_step (bs : List Nat) (h : 16 ≤ bs.length) :
    chunk16 bs = bs.take 16 :: chunk16 (bs.drop 16) := by
  have h1 : bs.length = (bs.length - 1) + 1 := by omega
  conv_lhs => rw [chunk16, h1]
  simp only [chunk16Fuel, h, if_true]
  congr 1
  apply chunk16Fuel_stable
  have := List.length_drop 16 bs
  omega

theorem chunk16_short (bs : List Nat) (h : bs.length < 16) : chunk16 bs = [] := by
  cases hb : bs.length with
  | zero =>
      have : bs = [] := List.length_eq_zero.mp hb
      subst this; rfl
  | succ m =>
      rw [chunk16, hb]
      simp only [chunk16Fuel]
      rw [if_neg (by omega : ¬ 16 ≤ bs.length)]

theorem chunk16_flatten (blocks : List (List Nat)) (h : ∀ b ∈ blocks, b.length = 16) :
    chunk16 blocks.flatten = blocks := by
  induction blocks with
  | nil => rfl
  | cons b rest ih =>
      have hb : b.length = 16 := h b (List.mem_cons_self b rest)
      have hlen : (b ++ rest.flatten).length = 16 + rest.flatten.length := by
        simp [List.length_append, hb]
      simp only [List.flatten_cons]
      rw [chunk16_step _ (by omega)]
      have htake : (b ++ rest.flatten).take 16 = b := by
        conv_lhs => rw [← hb]
        exact List.take_left b rest.flatten
      have hdrop : (b ++ rest.flatten).drop 16 = rest.flatten := by
        conv_lhs => rw [← hb]
        exact List.drop_left b rest.flatten
      rw [htake, hdrop, ih (fun x hx => h x (List.mem_cons_of_mem b hx))]

theorem chunk16_spec_aux (n : Nat) : ∀ bs : List Nat, bs.length ≤ n → bs.length % 16 = 0 →
    (∀ b ∈ chunk16 bs, b.length = 16) ∧ (chunk16 bs).flatten = bs := by
  induction n using Nat.strong_induction_on with
  | _ n ih =>
      intro bs hn hmod
      by_cases h16 : 16 ≤ bs.length
      · rw [chunk16_step bs h16]
        have htl : (bs.take 16).length = 16 := by
          rw [List.length_take]; omega
        have hdl : (bs.drop 16).length = bs.length - 16 := List.length_drop 16 bs
        have hrec := ih (bs.length - 16) (by omega) (bs.drop 16) (by omega) (by omega)
        constructor
        · intro b hb
          rcases List.mem_cons.mp hb with hb | hb
          · subst hb; exact htl
          · exact hrec.1 b hb
        · simp only [List.flatten_cons, hrec.2]
          exact List.take_append_drop 16 bs
      · have hlen0 : bs.length = 0 := by omega
        have hbs : bs = [] := List.length_eq_zero.mp hlen0
        subst hbs
        refine ⟨?_, rfl⟩
        intro b hb
        simp [chunk16, chunk16Fuel] at hb

theorem chunk16_spec (bs : List Nat) (h : bs.length % 16 = 0) :
    (∀ b ∈ chunk16 bs, b.length = 16) ∧ (chunk16 bs).flatten = bs :=
  chunk16_spec_aux bs.length bs le_rfl h

theorem xorBlock_length (a b : List Nat) : (xorBlock a b).length = min a.length b.length :=
  List.length_zipWith _ a b

theorem xorBlock_lt (a b : List Nat) (ha : ∀ x ∈ a, x < 256) (hb : ∀ x ∈ b, x < 256) :
    ∀ x ∈ xorBlock a b, x < 256 := by
  intro x hx
  rw [xorBlock, List.mem_iff_getElem] at hx
  obtain ⟨i, hilt, rfl⟩ := hx
  have hia : i < a.length := by
    rw [List.length_zipWith] at hilt; omega
  have hib : i < b.length := by
    rw [List.length_zipWith] at hilt; omega
  rw [List.getElem_zipWith]
  have h1 : a[i] < 2 ^ 8 := ha _ (List.getElem_mem hia)
  have h2 : b[i] < 2 ^ 8 := hb _ (List.getElem_mem hib)
  exact lt_of_lt_of_eq (Nat.xor_lt_two_pow h1 h2) (by norm_num)

theorem xorBlock_cancel : ∀ (a b : List Nat), a.length = b.length →
    xorBlock (xorBlock a b) b = a
  | [], [], _ => rfl
  | [], _ :: _, h => by simp at h
  | _ :: _, [], h => by simp at h
  | x :: xs, y :: ys, h => by
      have hrec := xorBlock_cancel xs ys (by simpa using h)
      simp only [xorBlock] at hrec ⊢
      simp [List.zipWith_cons_cons, Nat.xor_cancel_right, hrec]

theorem blockEnc_lt (k : Nat) (b : List Nat) : ∀ x ∈ blockEnc k b, x < 256 := by
  intro x hx
  simp only [blockEnc, List.mem_map] at hx
  obtain ⟨y, _, rfl⟩ := hx
  exact Nat.mod_lt _ (by omega)

theorem blockEnc_length (k : Nat) (b : List Nat) : (blockEnc k b).length = b.length :=
  List.length_map b _

theorem blockRound (k x : Nat) (hx : x < 256) :
    ((x + k) % 256 + (256 - k % 256)) % 256 = x := by
  have hk : k % 256 < 256 := Nat.mod_lt _ (by omega)
  have e1 : (x + k) % 256 = (x + k % 256) % 256 := by
    conv_rhs => rw [Nat.add_mod, Nat.mod_mod_of_dvd k dvd_rfl, ← Nat.add_mod]
  rw [e1, Nat.mod_add_mod]
  have e2 : x + k % 256 + (256 - k % 256) = x + 256 := by omega
  rw [e2, Nat.add_mod_right, Nat.mod_eq_of_lt hx]

theorem blockDec_blockEnc (k : Nat) (b : List Nat) (h : ∀ x ∈ b, x < 256) :
    blockDec k (blockEnc k b) = b := by
  simp only [blockDec, blockEnc, List.map_map]
  conv_rhs => rw [← List.map_id b]
  apply List.map_congr_left
  intro x hx
  simp only [Function.comp_apply, id]
  exact blockRound k x (h x hx)

theorem cbcEncBlocks_shape (k : Nat) : ∀ (blocks : List (List Nat)) (prev : List Nat),
    (∀ b ∈ blocks, b.length = 16) → prev.length = 16 →
    ∀ c ∈ cbcEncBlocks k prev blocks, c.length = 16 ∧ ∀ x ∈ c, x < 256
  | [], _, _, _ => by intro c hc; simp [cbcEncBlocks] at hc
  | b :: rest, prev, hb, hp => by
      intro c hc
      simp only [cbcEncBlocks, List.mem_cons] at hc
      have hblen : b.length = 16 := hb b (List.mem_cons_self b rest)
      have hclen : (blockEnc k (xorBlock b prev)).length = 16 := by
        rw [blockEnc_length, xorBlock_length, hblen, hp]; rfl
      rcases hc with rfl | hc
      · exact ⟨hclen, blockEnc_lt k _⟩
      · exact cbcEncBlocks_shape k rest _
          (fun x hx => hb x (List.mem_cons_of_mem b hx)) hclen c hc

theorem cbcDecBlocks_cbcEncBlocks (k : Nat) : ∀ (blocks : List (List Nat)) (prev : List Nat),
    (∀ b ∈ blocks, b.length = 16 ∧ ∀ x ∈ b, x < 256) →
    prev.length = 16 → (∀ x ∈ prev, x < 256) →
    cbcDecBlocks k prev (cbcEncBlocks k prev blocks) = blocks
  | [], _, _, _, _ => rfl
  | b :: rest, prev, hb, hp, hpv => by
      have hblen : b.length = 16 := (hb b (List.mem_cons_self b rest)).1
      have hblt : ∀ x ∈ b, x < 256 := (hb b (List.mem_cons_self b rest)).2
      simp only [cbcEncBlocks, cbcDecBlocks, List.cons.injEq]
      have hxlt : ∀ x ∈ xorBlock b prev, x < 256 := xorBlock_lt b prev hblt hpv
      have hxlen : (xorBlock b prev).length = 16 := by
        rw [xorBlock_length, hblen, hp]; rfl
      refine ⟨?_, ?_⟩
      · rw [blockDec_blockEnc k _ hxlt]
        exact xorBlock_cancel b prev (by rw [hblen, hp])
      · apply cbcDecBlocks_cbcEncBlocks k rest _
          (fun x hx => hb x (List.mem_cons_of_mem b hx))
        · rw [blockEnc_length, hxlen]
        · exact blockEnc_lt k _

/-! ## The encryption envelope codec (`src/lib/encryption.ts`) -/

namespace Enc

/-- The `EncryptionKey` interface of `encryption.ts`. -/
structure EncryptionKey where
  key : String
  salt : String
  timestamp : Nat
  version : Option String
deriving Repr, DecidableEq

/-- Error thrown by `EncryptionService.encrypt`; its catch block re-wraps every
failure into this one message. -/
def msgEncryptFailed : String := "Failed to encrypt data"

/-- Thrown on missing arguments in `EncryptionService.decrypt`. -/
def msgInvalidParams : String := "Invalid decryption parameters"

/-- Thrown when the unpadded plaintext length is not positive. -/
def msgWrongKey : String := "Invalid encrypted data or wrong key"

/-- Thrown when decryption yields the empty string. -/
def msgEmptyData : String := "Decryption resulted in empty data"

/-- Thrown by the library's Utf8 stringify on bytes that are not a valid text
encoding; the catch block rethrows it verbatim (`error instanceof Error`). -/
def msgMalformed : String := "Malformed UTF-8 data"

/-- Bytes of the format-version tag: the source computes
`CryptoJS.enc.Utf8.parse(version.padEnd(4, '\0'))`; for the ASCII version
strings in use UTF-8 is one byte per character, and `padEnd` pads (never
truncates) to four characters. -/
def versionBytes (v : String) : List Nat :=
  v.data.map Char.toNat ++ List.replicate (4 - v.length) 0

/-- Embedding of `EncryptionService.encrypt`: validates inputs, derives the key with PBKDF2,
AES-CBC-encrypts the PKCS#7-padded plaintext under the caller-supplied fresh
random IV (`WordArray.random(128/8)`, made explicit as the `iv` argument) and
prepends the version tag and the IV. JS falsiness of the validated strings is
emptiness. The envelope is the byte sequence (Base64 transport modelled as the
identity). -/
def encrypt (data : String) (k : EncryptionKey) (iv : List Nat) :
    Except String (List Nat) :=
  if data = "" ∨ k.key = "" ∨ k.salt = "" then .error msgEncryptFailed
  else
    .ok (versionBytes (k.version.getD "1.0") ++ iv ++
      cbcEncrypt (pbkdf2 k.key k.salt) iv (pkcs7pad (strToBytes data)))

/-- Number of 32-bit words CryptoJS reports for a byte sequence
(`combined.words.length`, i.e. the byte count rounded up to words). -/
def wordsLen (bs : List Nat) : Nat := (bs.length + 3) / 4

/-- True exactly when `EncryptionService.decrypt` takes the untagged legacy
branch: the source tests `combined.words.length >= 5` and falls back to the
legacy parse otherwise. -/
def usesLegacyPath (bs : List Nat) : Bool := decide (wordsLen bs < 5)

/-- Embedding of `EncryptionService.decrypt`: validates arguments, dispatches on the word
count (`>= 5` means tagged format: 4 tag bytes, 16 IV bytes, rest ciphertext;
otherwise the legacy parse: 16 IV bytes then ciphertext), CBC-decrypts, strips
PKCS#7 padding the CryptoJS way (subtract the value of the last byte from the
length, without validation), errors if the resulting length is not positive,
then renders the bytes as text — where the library's Utf8 stringify throws
'Malformed UTF-8 data' on bytes that are not a valid encoding — and finally
errors if the decoded string is empty. The extracted version tag is computed
by the source but never used. Inner thrown errors propagate with their
message (`if error instanceof Error throw error`; the non-Error fallback of
the catch block is unreachable since every value thrown is an Error). -/
def decrypt (env : List Nat) (k : EncryptionKey) : Except String String :=
  if env = [] ∨ k.key = "" ∨ k.salt = "" then .error msgInvalidParams
  else
    let iv := if 5 ≤ wordsLen env then (env.drop 4).take 16 else env.take 16
    let ct := if 5 ≤ wordsLen env then env.drop 20 else env.drop 16
    let full := cbcDecrypt (pbkdf2 k.key k.salt) iv ct
    let lastByte := full.getLast?.getD 0
    if full.length ≤ lastByte then .error msgWrongKey
    else
      match utf8Stringify (full.take (full.length - lastByte)) with
      | none => .error msgMalformed
      | some s =>
          if s = "" then .error msgEmptyData
          else .ok s

theorem versionBytes_length (v : String) (h : v.length ≤ 4) :
    (versionBytes v).length = 4 := by
  simp only [versionBytes, List.length_append, List.length_map, List.length_replicate]
  have : v.length = v.data.length := rfl
  omega

theorem versionBytes_length_ge (v : String) : 4 ≤ (versionBytes v).length := by
  simp only [versionBytes, List.length_append, List.length_map, List.length_replicate]
  have : v.length = v.data.length := rfl
  omega

theorem pkcs7pad_mod (bs : List Nat) : (pkcs7pad bs).length % 16 = 0 := by
  simp only [pkcs7pad, List.length_append, List.length_replicate]
  have := Nat.mod_lt bs.length (show 0 < 16 by omega)
  omega

theorem pkcs7pad_length (bs : List Nat) :
    (pkcs7pad bs).length = bs.length + (16 - bs.length % 16) := by
  simp [pkcs7pad, List.length_append, List.length_replicate]

theorem pkcs7pad_lt (bs : List Nat) (h : ∀ x ∈ bs, x < 256) :
    ∀ x ∈ pkcs7pad bs, x < 256 := by
  intro x hx
  simp only [pkcs7pad, List.mem_append] at hx
  rcases hx with hx | hx
  · exact h x hx
  · have := List.eq_of_mem_replicate hx
    omega

theorem flatten_length_16 (L : List (List Nat)) (h : ∀ b ∈ L, b.length = 16) :
    L.flatten.length = 16 * L.length := by
  induction L with
  | nil => rfl
  | cons b rest ih =>
      simp only [List.flatten_cons, List.length_append, List.length_cons,
        h b (List.mem_cons_self b rest), ih (fun x hx => h x (List.mem_cons_of_mem b hx))]
      omega

theorem cbcEncBlocks_length (k : Nat) :
    ∀ (blocks : List (List Nat)) (prev : List Nat),
      (cbcEncBlocks k prev blocks).length = blocks.length
  | [], _ => rfl
  | _ :: rest, _ => by
      simp only [cbcEncBlocks, List.length_cons]
      rw [cbcEncBlocks_length k rest]

theorem getLast_pad (bs : List Nat) (p : Nat) (hp : 1 ≤ p) :
    ((bs ++ List.replicate p p).getLast?.getD 0) = p := by
  obtain ⟨q, rfl⟩ : ∃ q, p = q + 1 := ⟨p - 1, by omega⟩
  rw [List.replicate_succ', ← List.append_assoc, List.getLast?_concat]
  rfl

/-- The envelope produced by a successful `encrypt`. -/
theorem encrypt_ok (data : String) (k : EncryptionKey) (iv : List Nat)
    (hd : data ≠ "") (hk : k.key ≠ "") (hs : k.salt ≠ "") :
    encrypt data k iv = .ok (versionBytes (k.version.getD "1.0") ++ iv ++
      cbcEncrypt (pbkdf2 k.key k.salt) iv (pkcs7pad (strToBytes data))) := by
  unfold encrypt
  rw [if_neg]
  push_neg
  exact ⟨hd, hk, hs⟩

/-- Core round-trip fact shared by the claim theorems and the storage layer:
decrypting the envelope `encrypt` builds, under the same key material, returns
the original plaintext. -/
theorem decrypt_encrypt_aux (data : String) (k : EncryptionKey) (iv : List Nat)
    (hd : data ≠ "") (hk : k.key ≠ "") (hs : k.salt ≠ "")
    (hivl : iv.length = 16) (hivv : ∀ x ∈ iv, x < 256)
    (hver : (k.version.getD "1.0").length ≤ 4) :
    decrypt (versionBytes (k.version.getD "1.0") ++ iv ++
      cbcEncrypt (pbkdf2 k.key k.salt) iv (pkcs7pad (strToBytes data))) k = .ok data := by
  have hdata : data.data ≠ [] := by
    intro hnil
    apply hd
    cases data with
    | mk l =>
        simp only at hnil
        subst hnil
        rfl
  set v := k.version.getD "1.0" with hv
  set dk := pbkdf2 k.key k.salt with hdk
  set sb := strToBytes data with hsb
  set padded := pkcs7pad sb with hpadded
  set ct := cbcEncrypt dk iv padded with hctdef
  set blocks := chunk16 padded with hblocks
  set encB := cbcEncBlocks dk iv blocks with hencB
  have hctflat : ct = encB.flatten := rfl
  have hsbl : sb.length = 4 * data.data.length := strToBytes_length data
  have hsbpos : 0 < sb.length := by
    have : data.data.length ≠ 0 := fun h0 => hdata (List.length_eq_zero.mp h0)
    omega
  have hpadmod : padded.length % 16 = 0 := pkcs7pad_mod sb
  have hpadlen : padded.length = sb.length + (16 - sb.length % 16) := pkcs7pad_length sb
  have hpadpos : 16 ≤ padded.length := by
    have := Nat.mod_lt sb.length (show 0 < 16 by omega)
    omega
  have hspec := chunk16_spec padded hpadmod
  have hblocks16 : ∀ b ∈ blocks, b.length = 16 := hspec.1
  have hflat : blocks.flatten = padded := hspec.2
  have hpadlt : ∀ x ∈ padded, x < 256 := pkcs7pad_lt sb (strToBytes_lt data)
  have hblockslt : ∀ b ∈ blocks, b.length = 16 ∧ ∀ x ∈ b, x < 256 := by
    intro b hb
    refine ⟨hblocks16 b hb, ?_⟩
    intro x hx
    apply hpadlt
    rw [← hflat]
    exact List.mem_flatten.mpr ⟨b, hb, hx⟩
  have hencB16 : ∀ c ∈ encB, c.length = 16 ∧ ∀ x ∈ c, x < 256 :=
    cbcEncBlocks_shape dk blocks iv hblocks16 hivl
  have hctlen : ct.length = 16 * blocks.length := by
    rw [hctflat, flatten_length_16 encB (fun c hc => (hencB16 c hc).1), hencB, cbcEncBlocks_length]
  have hvbl : (versionBytes v).length = 4 := versionBytes_length v hver
  set env := versionBytes v ++ iv ++ ct with henv
  have henvlen : env.length = 4 + 16 + ct.length := by
    simp only [henv, List.append_assoc, List.length_append, hvbl, hivl]
    omega
  have henvne : env ≠ [] := by
    intro h0
    have := congrArg List.length h0
    rw [henvlen] at this
    simp at this
  have hwl : 5 ≤ wordsLen env := by
    simp only [wordsLen, henvlen]
    omega
  have hdrop4 : env.drop 4 = iv ++ ct := by
    rw [henv, List.append_assoc]
    conv_lhs => rw [← hvbl]
    exact List.drop_left _ _
  have hiv' : (env.drop 4).take 16 = iv := by
    rw [hdrop4]
    conv_lhs => rw [← hivl]
    exact List.take_left _ _
  have hct' : env.drop 20 = ct := by
    have h20 : env.drop 20 = (env.drop 4).drop 16 := by
      rw [List.drop_drop]
    rw [h20, hdrop4]
    conv_lhs => rw [← hivl]
    exact List.drop_left _ _
  have hchunkct : chunk16 ct = encB := by
    rw [hctflat]
    exact chunk16_flatten encB (fun c hc => (hencB16 c hc).1)
  have hfull : cbcDecrypt dk iv ct = padded := by
    rw [cbcDecrypt, hchunkct, hencB,
      cbcDecBlocks_cbcEncBlocks dk blocks iv hblockslt hivl hivv, hflat]
  unfold decrypt
  rw [if_neg (by push_neg; exact ⟨henvne, hk, hs⟩)]
  simp only [if_pos hwl]
  rw [hiv', hct', hfull]
  set p := 16 - sb.length % 16 with hp
  have hp1 : 1 ≤ p := by
    have := Nat.mod_lt sb.length (show 0 < 16 by omega)
    omega
  have hlast : padded.getLast?.getD 0 = p := by
    rw [hpadded, pkcs7pad]
    exact getLast_pad sb p hp1
  rw [hlast]
  rw [if_neg (by omega : ¬ padded.length ≤ p)]
  have htake : padded.take (padded.length - p) = sb := by
    have hlen : padded.length - p = sb.length := by omega
    rw [hlen, hpadded, pkcs7pad]
    exact List.take_left _ _
  rw [htake, hsb]
  simp only [utf8Stringify_strToBytes]
  rw [if_neg hd]

/-- Demonstration key material (non-empty key and salt, current version tag). -/
def kDemo : EncryptionKey := ⟨"k", "s", 0, some "2.0"⟩

/-- Demonstration 16-byte IV. -/
def ivDemo : List Nat := List.replicate 16 3

/-- C3 (amended): for every non-empty plaintext P and key material K with
non-empty key and salt, a fresh 16-byte IV, and a version tag of at most four
ASCII characters (the default "1.0" and the current "2.0" both qualify),
`decrypt (encrypt P K) K` returns P. The claim as frozen quantifies over every
plaintext including the empty string, which `encrypt` rejects — see the
counterexample theorem. -/
theorem c3_decrypt_encrypt_roundtrip (data : String) (k : EncryptionKey) (iv : List Nat)
    (hd : data ≠ "") (hk : k.key ≠ "") (hs : k.salt ≠ "")
    (hivl : iv.length = 16) (hivv : ∀ x ∈ iv, x < 256)
    (hver : (k.version.getD "1.0").length ≤ 4) :
    ∃ env, encrypt data k iv = .ok env ∧ decrypt env k = .ok data :=
  ⟨_, encrypt_ok data k iv hd hk hs, decrypt_encrypt_aux data k iv hd hk hs hivl hivv hver⟩

/-- Witness for C3: the round trip evaluated at plaintext "hi" and concrete key
material. -/
theorem c3_roundtrip_witness :
    ∃ env, encrypt "hi" kDemo ivDemo = .ok env ∧ decrypt env kDemo = .ok "hi" :=
  c3_decrypt_encrypt_roundtrip "hi" kDemo ivDemo (by decide) (by decide) (by decide)
    (by decide) (by decide) (by decide)

/-- C3 counterexample: at the empty plaintext the claimed round trip fails —
`encrypt` throws (the JS falsiness check rejects ""), so there is no envelope
that would decode back to "". -/
theorem c3_counterexample_empty_plaintext :
    encrypt "" kDemo ivDemo = .error msgEncryptFailed := rfl

/-- Legacy-format envelope (no version tag: a 16-byte IV directly followed by
the ciphertext), built for plaintext "test". -/
def legacyEnvC4 : List Nat :=
  ivDemo ++ cbcEncrypt (pbkdf2 "k" "s") ivDemo (pkcs7pad (strToBytes "test"))

/-- C4 (code bug): a real legacy envelope is never parsed via the legacy path.
An AES-CBC ciphertext is at least one 16-byte block, so a legacy envelope has
at least 32 bytes = 8 words ≥ 5, and `decrypt`'s length heuristic
(`words.length >= 5`) sends it down the tagged-format branch, where the first
four IV bytes are consumed as a version tag and the envelope fails to decode.
The second half of the claim is true: every envelope `encrypt` produces has at
least 20 bytes = 5 words and never satisfies the legacy heuristic. -/
theorem c4_legacy_misdispatch :
    usesLegacyPath legacyEnvC4 = false ∧
    decrypt legacyEnvC4 kDemo ≠ .ok "test" ∧
    (∀ data k iv env, iv.length = 16 → encrypt data k iv = .ok env →
      usesLegacyPath env = false) := by
  have hval : decrypt legacyEnvC4 kDemo = .error msgWrongKey := rfl
  refine ⟨by decide, ?_, ?_⟩
  · intro hcontra
    rw [hval] at hcontra
    exact Except.noConfusion hcontra
  · intro data k iv env hivl henc
    unfold encrypt at henc
    split_ifs at henc with hbad
    injection henc with h2
    rw [← h2]
    simp only [usesLegacyPath, decide_eq_false_iff_not, not_lt]
    show 5 ≤ wordsLen _
    have h4 := versionBytes_length_ge (k.version.getD "1.0")
    simp only [wordsLen, List.append_assoc, List.length_append, hivl]
    omega

/-- Witness for C4's universally quantified conjunct: an envelope produced by
`encrypt` at concrete inputs does not satisfy the legacy heuristic. -/
theorem c4_witness :
    usesLegacyPath ((encrypt "hi" kDemo ivDemo).toOption.getD []) = false :=
  c4_legacy_misdispatch.2.2 "hi" kDemo ivDemo _ (by decide) rfl

/-- C6 (amended): `decrypt` fails with one of exactly four pairwise distinct
error values — invalid parameters, the non-positive-unpadded-length error
(labelled "wrong key"), the library's 'Malformed UTF-8 data' (rethrown
verbatim by the catch block), and empty decrypted content. Cause (c) of the
claim (empty content) is identifiable, but causes (a) wrong key and (b)
corrupt/truncated envelope are not separately identifiable: there is no
authentication in CBC mode and no branch inspects the cause, so both surface
as the length error or the malformed-text error depending only on the garbage
bytes — see the counterexample for two different causes yielding the
identical error. -/
theorem c6_error_classification :
    (∀ env k e, decrypt env k = .error e →
      e = msgInvalidParams ∨ e = msgWrongKey ∨ e = msgMalformed ∨ e = msgEmptyData) ∧
    msgInvalidParams ≠ msgWrongKey ∧ msgInvalidParams ≠ msgMalformed ∧
    msgInvalidParams ≠ msgEmptyData ∧ msgWrongKey ≠ msgMalformed ∧
    msgWrongKey ≠ msgEmptyData ∧ msgMalformed ≠ msgEmptyData := by
  refine ⟨?_, by decide, by decide, by decide, by decide, by decide, by decide⟩
  intro env k e h
  unfold decrypt at h
  dsimp only at h
  split_ifs at h
  all_goals (
    try (split at h)
    all_goals (
      try (split_ifs at h)
      all_goals (
        injection h with h'
        first
          | exact Or.inl h'.symm
          | exact Or.inr (Or.inl h'.symm)
          | exact Or.inr (Or.inr (Or.inl h'.symm))
          | exact Or.inr (Or.inr (Or.inr h'.symm)))))

/-- Witness for C6: the classification applied to a concrete failing decrypt. -/
theorem c6_witness :
    msgWrongKey = msgInvalidParams ∨ msgWrongKey = msgWrongKey ∨
    msgWrongKey = msgMalformed ∨ msgWrongKey = msgEmptyData :=
  c6_error_classification.1 (List.replicate 20 9) kDemo msgWrongKey rfl

/-- Key material differing from `kDemo` only in the secret. -/
def keyWrongC6 : EncryptionKey := ⟨"x", "s", 0, some "2.0"⟩

/-- The envelope `encrypt` produces for "abc" under `kDemo`. -/
def envWrongC6 : List Nat :=
  versionBytes "2.0" ++ ivDemo ++ cbcEncrypt (pbkdf2 "k" "s") ivDemo (pkcs7pad (strToBytes "abc"))

/-- C6 counterexample: a wrong-key failure (a valid envelope decrypted under a
different key) and a truncated-envelope failure (twenty bytes, no ciphertext)
produce the identical error value, so the caller cannot tell causes (a) and
(b) apart, refuting the claim that each cause yields a distinct identifiable
error. -/
theorem c6_counterexample_same_error :
    encrypt "abc" kDemo ivDemo = .ok envWrongC6 ∧
    decrypt envWrongC6 keyWrongC6 = .error msgWrongKey ∧
    decrypt (List.replicate 20 9) kDemo = .error msgWrongKey ∧
    kDemo ≠ keyWrongC6 :=
  ⟨rfl, rfl, rfl, by decide⟩

end Enc


/-! ## The vault repository (`src/lib/passwordStorage.ts`)

The repository persists a single blob per user in `localStorage` under
`vault_<userId>`; the cell is modelled as an explicit `Option (List Nat)`
(absent, or the stored envelope bytes). `JSON.stringify`/`JSON.parse` of a
vault record — a bijection between these records and their JSON strings — is
modelled by the explicit injective codec `serializeVault`/`parseVault` with a
proven round trip. -/

namespace Storage

/-- The `Password` interface of `passwordStorage.ts`. -/
structure Password where
  id : String
  name : String
  username : String
  password : String
  url : Option String
  notes : Option String
  category : String
  createdAt : Nat
  updatedAt : Nat
deriving Repr, DecidableEq

/-- The `PasswordVault` interface of `passwordStorage.ts`. -/
structure PasswordVault where
  passwords : List Password
  lastSync : Nat
  userEmail : Option String
deriving Repr, DecidableEq

/-- Unary length-prefixed rendering of a natural number. -/
def encNat (n : Nat) : List Char := List.replicate n '1' ++ [',']

/-- Length-prefixed rendering of a string (no escaping needed). -/
def encStr (s : String) : List Char := encNat s.data.length ++ s.data

/-- Rendering of an optional string. -/
def encOptStr : Option String → List Char
  | none => encNat 0
  | some s => encNat 1 ++ encStr s

/-- Rendering of one password entry. -/
def encPassword (p : Password) : List Char :=
  encStr p.id ++ encStr p.name ++ encStr p.username ++ encStr p.password ++
  encOptStr p.url ++ encOptStr p.notes ++ encStr p.category ++
  encNat p.createdAt ++ encNat p.updatedAt

/-- Model of `JSON.stringify` on a vault record: an injective rendering with
the total inverse `parseVault`. -/
def serializeVault (v : PasswordVault) : String :=
  String.mk (encNat v.passwords.length ++ (v.passwords.map encPassword).flatten ++
    encNat v.lastSync ++ encOptStr v.userEmail)

/-- Parser for `encNat`. -/
def parseNat : List Char → Option (Nat × List Char)
  | [] => none
  | c :: rest =>
      if c = ',' then some (0, rest)
      else if c = '1' then (parseNat rest).map (fun pr => (pr.1 + 1, pr.2))
      else none

/-- Parser for `encStr`. -/
def parseStr (cs : List Char) : Option (String × List Char) :=
  (parseNat cs).bind fun pr =>
    if pr.1 ≤ pr.2.length then some (String.mk (pr.2.take pr.1), pr.2.drop pr.1) else none

/-- Parser for `encOptStr`. -/
def parseOptStr (cs : List Char) : Option (Option String × List Char) :=
  (parseNat cs).bind fun pr =>
    if pr.1 = 0 then some (none, pr.2)
    else if pr.1 = 1 then (parseStr pr.2).map (fun pr2 => (some pr2.1, pr2.2))
    else none

/-- Parser for `encPassword`. -/
def parsePassword (cs : List Char) : Option (Password × List Char) :=
  (parseStr cs).bind fun pr1 =>
  (parseStr pr1.2).bind fun pr2 =>
  (parseStr pr2.2).bind fun pr3 =>
  (parseStr pr3.2).bind fun pr4 =>
  (parseOptStr pr4.2).bind fun pr5 =>
  (parseOptStr pr5.2).bind fun pr6 =>
  (parseStr pr6.2).bind fun pr7 =>
  (parseNat pr7.2).bind fun pr8 =>
  (parseNat pr8.2).map fun pr9 =>
  (⟨pr1.1, pr2.1, pr3.1, pr4.1, pr5.1, pr6.1, pr7.1, pr8.1, pr9.1⟩, pr9.2)

/-- Parser for a counted list of password entries. -/
def parseItems : Nat → List Char → Option (List Password × List Char)
  | 0, cs => some ([], cs)
  | n + 1, cs =>
      (parsePassword cs).bind fun pr =>
      (parseItems n pr.2).map fun pr2 => (pr.1 :: pr2.1, pr2.2)

/-- Total inverse of `serializeVault`. -/
def parseVault (s : String) : Option PasswordVault :=
  (parseNat s.data).bind fun pr0 =>
  (parseItems pr0.1 pr0.2).bind fun pr1 =>
  (parseNat pr1.2).bind fun pr2 =>
  (parseOptStr pr2.2).map fun pr3 =>
  (⟨pr1.1, pr2.1, pr3.1⟩ : PasswordVault)

theorem parseNat_encNat (n : Nat) (rest : List Char) :
    parseNat (encNat n ++ rest) = some (n, rest) := by
  induction n with
  | zero => rfl
  | succ m ih =>
      have h : encNat (m + 1) ++ rest = '1' :: (encNat m ++ rest) := by
        simp [encNat, List.replicate_succ]
      rw [h]
      simp [parseNat, ih]

theorem strMk_data (s : String) : String.mk s.data = s := rfl

theorem parseStr_encStr (s : String) (rest : List Char) :
    parseStr (encStr s ++ rest) = some (s, rest) := by
  have h : encStr s ++ rest = encNat s.data.length ++ (s.data ++ rest) := by
    simp [encStr, List.append_assoc]
  rw [parseStr, h, parseNat_encNat, Option.some_bind]
  have hle : s.data.length ≤ (s.data ++ rest).length := by
    simp [List.length_append]
  rw [if_pos hle, List.take_left, List.drop_left, strMk_data]

theorem parseOptStr_encOptStr (o : Option String) (rest : List Char) :
    parseOptStr (encOptStr o ++ rest) = some (o, rest) := by
  cases o with
  | none =>
      rw [encOptStr, parseOptStr, parseNat_encNat, Option.some_bind]
      simp
  | some s =>
      have h : encOptStr (some s) ++ rest = encNat 1 ++ (encStr s ++ rest) := by
        simp [encOptStr, List.append_assoc]
      rw [parseOptStr, h, parseNat_encNat, Option.some_bind]
      simp [parseStr_encStr]

theorem parsePassword_encPassword (p : Password) (rest : List Char) :
    parsePassword (encPassword p ++ rest) = some (p, rest) := by
  have h : encPassword p ++ rest =
      encStr p.id ++ (encStr p.name ++ (encStr p.username ++ (encStr p.password ++
      (encOptStr p.url ++ (encOptStr p.notes ++ (encStr p.category ++
      (encNat p.createdAt ++ (encNat p.updatedAt ++ rest)))))))) := by
    simp [encPassword, List.append_assoc]
  rw [parsePassword, h, parseStr_encStr, Option.some_bind, parseStr_encStr,
    Option.some_bind, parseStr_encStr, Option.some_bind, parseStr_encStr,
    Option.some_bind, parseOptStr_encOptStr, Option.some_bind, parseOptStr_encOptStr,
    Option.some_bind, parseStr_encStr, Option.some_bind, parseNat_encNat,
    Option.some_bind, parseNat_encNat, Option.map_some']

theorem parseItems_enc (ps : List Password) (rest : List Char) :
    parseItems ps.length ((ps.map encPassword).flatten ++ rest) = some (ps, rest) := by
  induction ps with
  | nil => rfl
  | cons p rest' ih =>
      have h : ((p :: rest').map encPassword).flatten ++ rest =
          encPassword p ++ ((rest'.map encPassword).flatten ++ rest) := by
        simp [List.append_assoc]
      rw [List.length_cons, parseItems, h, parsePassword_encPassword, Option.some_bind,
        ih, Option.map_some']

theorem parseVault_serializeVault (v : PasswordVault) :
    parseVault (serializeVault v) = some v := by
  have h : (serializeVault v).data =
      encNat v.passwords.length ++ ((v.passwords.map encPassword).flatten ++
        (encNat v.lastSync ++ (encOptStr v.userEmail ++ []))) := by
    simp [serializeVault, List.append_assoc]
  rw [parseVault, h, parseNat_encNat, Option.some_bind, parseItems_enc, Option.some_bind,
    parseNat_encNat, Option.some_bind, parseOptStr_encOptStr, Option.map_some']

theorem serializeVault_ne (v : PasswordVault) : serializeVault v ≠ "" := by
  intro h
  have hp := parseVault_serializeVault v
  rw [h] at hp
  have h0 : parseVault "" = none := rfl
  rw [h0] at hp
  exact Option.noConfusion hp

/-- The empty vault the source constructs (`{ passwords: [], lastSync: Date.now() }`). -/
def emptyVault (now : Nat) : PasswordVault := ⟨[], now, none⟩

/-- Embedding of `PasswordStorageService.getVault`: absent or empty cell yields a fresh
empty vault; an invalid key yields a fresh empty vault; a decryption or parse
failure is caught and likewise yields a fresh empty vault (the catch block);
on success the record is rebuilt field-wise, `vault.lastSync || Date.now()`
making a zero (falsy) timestamp fall back to the clock. -/
def getVault (st : Option (List Nat)) (k : Enc.EncryptionKey) (now : Nat) : PasswordVault :=
  match st with
  | none => emptyVault now
  | some blob =>
      if blob = [] then emptyVault now
      else if k.key = "" ∨ k.salt = "" then emptyVault now
      else
        match Enc.decrypt blob k with
        | .error _ => emptyVault now
        | .ok s =>
            match parseVault s with
            | none => emptyVault now
            | some v => ⟨v.passwords, if v.lastSync = 0 then now else v.lastSync, v.userEmail⟩

/-- Embedding of `PasswordStorageService.saveVault`: serialize, encrypt, store; the catch
block swallows an encryption failure, leaving the cell unchanged. -/
def saveVault (st : Option (List Nat)) (v : PasswordVault) (k : Enc.EncryptionKey)
    (iv : List Nat) : Option (List Nat) :=
  match Enc.encrypt (serializeVault v) k iv with
  | .error _ => st
  | .ok env => some env

/-- Embedding of `PasswordStorageService.savePassword`: load, replace the entry whose id
matches (stamping `updatedAt` with the clock) or push the entry unchanged,
stamp `lastSync`, save. -/
def savePassword (st : Option (List Nat)) (p : Password) (k : Enc.EncryptionKey)
    (now : Nat) (iv : List Nat) : Option (List Nat) :=
  let vault := getVault st k now
  let ps :=
    match vault.passwords.findIdx? (fun q => q.id == p.id) with
    | some i => vault.passwords.set i { p with updatedAt := now }
    | none => vault.passwords ++ [p]
  saveVault st ⟨ps, now, vault.userEmail⟩ k iv

/-- Embedding of `PasswordStorageService.deletePassword`: load, filter out the id, stamp
`lastSync`, save. -/
def deletePassword (st : Option (List Nat)) (pid : String) (k : Enc.EncryptionKey)
    (now : Nat) (iv : List Nat) : Option (List Nat) :=
  let vault := getVault st k now
  saveVault st ⟨vault.passwords.filter (fun p => p.id != pid), now, vault.userEmail⟩ k iv

/-- Recursive characterization of the findIndex/replace-or-push upsert. -/
def upsertRec (p : Password) (now : Nat) : List Password → List Password
  | [] => [p]
  | q :: rest =>
      if q.id = p.id then { p with updatedAt := now } :: rest
      else q :: upsertRec p now rest

theorem upsert_eq_upsertRec (l : List Password) (p : Password) (now : Nat) :
    (match l.findIdx? (fun q => q.id == p.id) with
      | some i => l.set i { p with updatedAt := now }
      | none => l ++ [p]) = upsertRec p now l := by
  induction l with
  | nil => rfl
  | cons q rest ih =>
      by_cases h : q.id = p.id
      · have hb : (q.id == p.id) = true := by simp [h]
        simp [List.findIdx?_cons, hb, upsertRec, h]
      · have hb : (q.id == p.id) = false := by simp [h]
        simp only [List.findIdx?_cons, hb, Bool.false_eq_true, if_false, List.findIdx?_succ,
          upsertRec, if_neg h]
        cases hf : rest.findIdx? (fun x => x.id == p.id) with
        | none =>
            rw [hf] at ih
            simp only [hf, Option.map_none', List.cons_append]
            rw [← ih]
        | some i =>
            rw [hf] at ih
            simp only [hf, Option.map_some', List.set_cons_succ]
            rw [← ih]

theorem upsertRec_mem (p : Password) (now : Nat) :
    ∀ l : List Password, ∃ q ∈ upsertRec p now l, q.id = p.id
  | [] => ⟨p, by
      show p ∈ [p]
      exact List.mem_singleton_self p, rfl⟩
  | q :: rest => by
      by_cases h : q.id = p.id
      · refine ⟨{ p with updatedAt := now }, ?_, rfl⟩
        simp only [upsertRec, if_pos h]
        exact List.mem_cons_self _ _
      · obtain ⟨x, hx, hxid⟩ := upsertRec_mem p now rest
        refine ⟨x, ?_, hxid⟩
        simp only [upsertRec, if_neg h, List.mem_cons]
        exact Or.inr hx

theorem upsertRec_length_of_mem (p : Password) (now : Nat) :
    ∀ l : List Password, (∃ q ∈ l, q.id = p.id) →
      (upsertRec p now l).length = l.length
  | [], h => by simp at h
  | q :: rest, h => by
      by_cases hq : q.id = p.id
      · simp [upsertRec, hq]
      · obtain ⟨x, hx, hxid⟩ := h
        rcases List.mem_cons.mp hx with rfl | hx'
        · exact absurd hxid hq
        · simp only [upsertRec, if_neg hq, List.length_cons]
          rw [upsertRec_length_of_mem p now rest ⟨x, hx', hxid⟩]

theorem upsertRec_countP (p : Password) (now : Nat) :
    ∀ l : List Password, l.countP (fun q => q.id == p.id) ≤ 1 →
      (upsertRec p now l).countP (fun q => q.id == p.id) = 1
  | [], _ => by
      show List.countP (fun q => q.id == p.id) [p] = 1
      simp [List.countP_cons]
  | q :: rest, h => by
      by_cases hq : q.id = p.id
      · have hcons : List.countP (fun x => x.id == p.id) (q :: rest) =
            List.countP (fun x => x.id == p.id) rest + 1 := by
          simp [List.countP_cons, hq]
        have hrest : rest.countP (fun x => x.id == p.id) = 0 := by omega
        simp only [upsertRec, if_pos hq]
        have : List.countP (fun x => x.id == p.id)
            ({ p with updatedAt := now } :: rest) =
            List.countP (fun x => x.id == p.id) rest + 1 := by
          simp [List.countP_cons]
        omega
      · have hcons : List.countP (fun x => x.id == p.id) (q :: rest) =
            List.countP (fun x => x.id == p.id) rest := by
          simp [List.countP_cons, beq_iff_eq, hq]
        have hrest : rest.countP (fun x => x.id == p.id) ≤ 1 := by omega
        simp only [upsertRec, if_neg hq]
        have : List.countP (fun x => x.id == p.id) (q :: upsertRec p now rest) =
            List.countP (fun x => x.id == p.id) (upsertRec p now rest) := by
          simp [List.countP_cons, beq_iff_eq, hq]
        rw [this, upsertRec_countP p now rest hrest]

theorem upsertRec_elem (p : Password) (now : Nat) :
    ∀ l : List Password, l.countP (fun q => q.id == p.id) ≤ 1 →
      (∃ x ∈ l, x.id = p.id) →
      ∀ q ∈ upsertRec p now l, q.id = p.id → q = { p with updatedAt := now }
  | [], _, hmem, _, _, _ => by simp at hmem
  | q0 :: rest, h, hmem, q, hq, hid => by
      by_cases hq0 : q0.id = p.id
      · simp only [upsertRec, if_pos hq0, List.mem_cons] at hq
        rcases hq with rfl | hq'
        · rfl
        · exfalso
          have hcons : List.countP (fun x => x.id == p.id) (q0 :: rest) =
              List.countP (fun x => x.id == p.id) rest + 1 := by
            simp [List.countP_cons, hq0]
          have hqin : 0 < rest.countP (fun x => x.id == p.id) :=
            List.countP_pos_iff.mpr ⟨q, hq', by simp [hid]⟩
          omega
      · simp only [upsertRec, if_neg hq0, List.mem_cons] at hq
        have hcons : List.countP (fun x => x.id == p.id) (q0 :: rest) =
            List.countP (fun x => x.id == p.id) rest := by
          simp [List.countP_cons, beq_iff_eq, hq0]
        have hmem' : ∃ x ∈ rest, x.id = p.id := by
          obtain ⟨x, hx, hxid⟩ := hmem
          rcases List.mem_cons.mp hx with rfl | hx'
          · exact absurd hxid hq0
          · exact ⟨x, hx', hxid⟩
        rcases hq with rfl | hq'
        · exact absurd hid hq0
        · exact upsertRec_elem p now rest (by omega) hmem' q hq' hid

theorem countP_le_one_of_nodup (l : List Password)
    (hl : (l.map Password.id).Nodup) (x : String) :
    l.countP (fun q => q.id == x) ≤ 1 := by
  have h1 : l.countP (fun q => q.id == x) = (l.map Password.id).countP (fun y => y == x) := by
    rw [List.countP_map]
    rfl
  have h2 : (l.map Password.id).countP (fun y => y == x) = (l.map Password.id).count x := rfl
  rw [h1, h2]
  exact List.nodup_iff_count_le_one.mp hl x

theorem getVault_saveVault (st : Option (List Nat)) (v : PasswordVault)
    (k : Enc.EncryptionKey) (iv : List Nat) (now : Nat)
    (hk : k.key ≠ "") (hs : k.salt ≠ "")
    (hivl : iv.length = 16) (hivv : ∀ x ∈ iv, x < 256)
    (hver : (k.version.getD "1.0").length ≤ 4) :
    getVault (saveVault st v k iv) k now =
      ⟨v.passwords, if v.lastSync = 0 then now else v.lastSync, v.userEmail⟩ := by
  have hser : serializeVault v ≠ "" := serializeVault_ne v
  rw [saveVault, Enc.encrypt_ok _ _ _ hser hk hs]
  have hne : Enc.versionBytes (k.version.getD "1.0") ++ iv ++
      cbcEncrypt (pbkdf2 k.key k.salt) iv (pkcs7pad (strToBytes (serializeVault v))) ≠ [] := by
    intro h0
    rcases List.append_eq_nil.mp h0 with ⟨h1, _⟩
    rcases List.append_eq_nil.mp h1 with ⟨h2, _⟩
    have hge := Enc.versionBytes_length_ge (k.version.getD "1.0")
    rw [h2] at hge
    simp at hge
  rw [getVault]
  rw [if_neg hne, if_neg (by push_neg; exact ⟨hk, hs⟩)]
  rw [Enc.decrypt_encrypt_aux _ _ _ hser hk hs hivl hivv hver]
  simp only [parseVault_serializeVault]

theorem getVault_savePassword (st : Option (List Nat)) (p : Password)
    (k : Enc.EncryptionKey) (now t' : Nat) (iv : List Nat)
    (hk : k.key ≠ "") (hs : k.salt ≠ "")
    (hivl : iv.length = 16) (hivv : ∀ x ∈ iv, x < 256)
    (hver : (k.version.getD "1.0").length ≤ 4) :
    (getVault (savePassword st p k now iv) k t').passwords =
      upsertRec p now (getVault st k now).passwords := by
  rw [savePassword]
  rw [getVault_saveVault st _ k iv t' hk hs hivl hivv hver]
  exact upsert_eq_upsertRec _ p now

/-- C7: `getVault` returns a fresh empty vault, raising no error, both when no
blob is stored for the user and whenever decryption of a stored blob fails; a
decoding failure is never propagated to the caller (the embedding of
`getVault` is a total function into vault records). -/
theorem c7_getVault_decode_fallback (k : Enc.EncryptionKey) (now : Nat) (blob : List Nat) :
    getVault none k now = emptyVault now ∧
    (∀ e, Enc.decrypt blob k = .error e → getVault (some blob) k now = emptyVault now) := by
  refine ⟨rfl, ?_⟩
  intro e he
  rw [getVault]
  by_cases hb : blob = []
  · rw [if_pos hb]
  · rw [if_neg hb]
    by_cases hk : k.key = "" ∨ k.salt = ""
    · rw [if_pos hk]
    · rw [if_neg hk, he]

/-- Witness for C7: a stored blob whose decryption fails falls back to the
fresh empty vault. -/
theorem c7_witness : getVault (some [5]) Enc.kDemo 7 = emptyVault 7 :=
  (c7_getVault_decode_fallback Enc.kDemo 7 [5]).2 Enc.msgWrongKey rfl

/-- C10 (implicit): when encryption fails (here: invalid key material, the
only failure mode of the embedded `encrypt`), `saveVault` catches the error
and returns normally without writing, so the previously persisted blob is
unchanged, and `savePassword` / `deletePassword` complete without signalling
any failure (they are total and return the unchanged cell). -/
theorem c10_saveVault_swallows_failure (st : Option (List Nat))
    (v : PasswordVault) (p : Password) (pid : String) (k : Enc.EncryptionKey)
    (now : Nat) (iv : List Nat) (hk : k.key = "" ∨ k.salt = "") :
    saveVault st v k iv = st ∧
    savePassword st p k now iv = st ∧
    deletePassword st pid k now iv = st := by
  have hsv : ∀ v' : PasswordVault, saveVault st v' k iv = st := by
    intro v'
    rw [saveVault]
    rw [show Enc.encrypt (serializeVault v') k iv = .error Enc.msgEncryptFailed by
      rw [Enc.encrypt, if_pos (Or.inr hk)]]
  exact ⟨hsv v, hsv _, hsv _⟩

/-- Demonstration password entry. -/
def pDemo : Password := ⟨"a", "n", "u", "w", none, none, "c", 0, 0⟩

/-- Witness for C10: with an empty secret the three operations leave a
concrete stored blob unchanged. -/
theorem c10_witness :
    saveVault (some [9]) (emptyVault 0) ⟨"", "s", 0, some "2.0"⟩ Enc.ivDemo = some [9] ∧
    savePassword (some [9]) pDemo ⟨"", "s", 0, some "2.0"⟩ 5 Enc.ivDemo = some [9] ∧
    deletePassword (some [9]) "a" ⟨"", "s", 0, some "2.0"⟩ 5 Enc.ivDemo = some [9] :=
  c10_saveVault_swallows_failure (some [9]) (emptyVault 0) pDemo "a"
    ⟨"", "s", 0, some "2.0"⟩ 5 Enc.ivDemo (Or.inl rfl)

/-- C8 (amended): two upserts with the same id leave exactly one entry with
that id, the entry count after the second call is no larger than after the
first, and the surviving entry carries the second call's fields with
`updatedAt` stamped by the second call. The claim's trailing clause "or
appends, stamping updatedAt" does not hold: the append branch pushes the
entry unchanged, without stamping — see the counterexample. -/
theorem c8_upsert_twice_same_id (st : Option (List Nat)) (p1 p2 : Password)
    (k : Enc.EncryptionKey) (t1 t2 t3 t4 : Nat) (iv1 iv2 : List Nat)
    (hk : k.key ≠ "") (hs : k.salt ≠ "")
    (hiv1l : iv1.length = 16) (hiv1v : ∀ x ∈ iv1, x < 256)
    (hiv2l : iv2.length = 16) (hiv2v : ∀ x ∈ iv2, x < 256)
    (hver : (k.version.getD "1.0").length ≤ 4)
    (hid : p1.id = p2.id)
    (hnodup : ((getVault st k t1).passwords.map Password.id).Nodup) :
    ((getVault (savePassword (savePassword st p1 k t1 iv1) p2 k t2 iv2) k t4).passwords.countP
        (fun q => q.id == p2.id) = 1) ∧
    (getVault (savePassword (savePassword st p1 k t1 iv1) p2 k t2 iv2) k t4).passwords.length ≤
      (getVault (savePassword st p1 k t1 iv1) k t3).passwords.length ∧
    (∀ q ∈ (getVault (savePassword (savePassword st p1 k t1 iv1) p2 k t2 iv2) k t4).passwords,
      q.id = p2.id → q = { p2 with updatedAt := t2 }) := by
  have hl1 : ∀ t', (getVault (savePassword st p1 k t1 iv1) k t').passwords =
      upsertRec p1 t1 (getVault st k t1).passwords := by
    intro t'
    exact getVault_savePassword st p1 k t1 t' iv1 hk hs hiv1l hiv1v hver
  have hl2 : (getVault (savePassword (savePassword st p1 k t1 iv1) p2 k t2 iv2) k t4).passwords =
      upsertRec p2 t2 (upsertRec p1 t1 (getVault st k t1).passwords) := by
    rw [getVault_savePassword _ p2 k t2 t4 iv2 hk hs hiv2l hiv2v hver]
    rw [hl1 t2]
  set l0 := (getVault st k t1).passwords with hl0
  have hc0 : l0.countP (fun q => q.id == p1.id) ≤ 1 :=
    countP_le_one_of_nodup l0 hnodup p1.id
  have hc1 : (upsertRec p1 t1 l0).countP (fun q => q.id == p1.id) = 1 :=
    upsertRec_countP p1 t1 l0 hc0
  have hc1' : (upsertRec p1 t1 l0).countP (fun q => q.id == p2.id) ≤ 1 := by
    rw [← hid]
    omega
  have hmem1 : ∃ q ∈ upsertRec p1 t1 l0, q.id = p2.id := by
    obtain ⟨q, hq, hqid⟩ := upsertRec_mem p1 t1 l0
    exact ⟨q, hq, hid ▸ hqid⟩
  refine ⟨?_, ?_, ?_⟩
  · rw [hl2]
    exact upsertRec_countP p2 t2 _ hc1'
  · rw [hl2, hl1 t3]
    rw [upsertRec_length_of_mem p2 t2 _ hmem1]
  · intro q hq hqid
    rw [hl2] at hq
    exact upsertRec_elem p2 t2 _ hc1' hmem1 q hq hqid

/-- Witness for C8: the two-upsert property evaluated at concrete entries
sharing the id "a", stamped at times 5 and 9. -/
theorem c8_witness :
    ((getVault (savePassword (savePassword none pDemo Enc.kDemo 5 Enc.ivDemo)
        ⟨"a", "n2", "u2", "w2", none, none, "c", 0, 0⟩ Enc.kDemo 9 Enc.ivDemo) Enc.kDemo 11).passwords.countP
        (fun q => q.id == ("a" : String)) = 1) ∧
    (getVault (savePassword (savePassword none pDemo Enc.kDemo 5 Enc.ivDemo)
        ⟨"a", "n2", "u2", "w2", none, none, "c", 0, 0⟩ Enc.kDemo 9 Enc.ivDemo) Enc.kDemo 11).passwords.length ≤
      (getVault (savePassword none pDemo Enc.kDemo 5 Enc.ivDemo) Enc.kDemo 10).passwords.length ∧
    (∀ q ∈ (getVault (savePassword (savePassword none pDemo Enc.kDemo 5 Enc.ivDemo)
        ⟨"a", "n2", "u2", "w2", none, none, "c", 0, 0⟩ Enc.kDemo 9 Enc.ivDemo) Enc.kDemo 11).passwords,
      q.id = ("a" : String) →
        q = ⟨"a", "n2", "u2", "w2", none, none, "c", 0, 9⟩) :=
  c8_upsert_twice_same_id none pDemo ⟨"a", "n2", "u2", "w2", none, none, "c", 0, 0⟩
    Enc.kDemo 5 9 10 11 Enc.ivDemo Enc.ivDemo (by decide) (by decide) (by decide)
    (by decide) (by decide) (by decide) (by decide) rfl (by decide)

/-- C8 counterexample: a first upsert of an entry with `updatedAt = 0` at
clock time 5 appends the entry unchanged — the stored entry keeps
`updatedAt = 0` instead of the claimed stamp 5. -/
theorem c8_counterexample_append_not_stamped :
    (getVault (savePassword none pDemo Enc.kDemo 5 Enc.ivDemo) Enc.kDemo 9).passwords =
      [pDemo] ∧ pDemo.updatedAt = 0 ∧ (0 : Nat) ≠ 5 :=
  ⟨by decide, rfl, by decide⟩

end Storage


/-! ## The recovery registrar and verifier (Supabase edge functions)

`store-aadhaar-recovery` and `verify-aadhaar-recovery` are modelled with the
database row passed explicitly (`Option RecoveryRecord` — the row for one
subject, `none` when absent) and the clock as a `now` argument in epoch
milliseconds. bcrypt is external library code: its hash is modelled as a
salted injective encoding and `compare` re-hashes under the salt recorded in
the stored value, exactly the interface the handlers use. -/

namespace Recovery

/-- Model of `bcrypt.hash(input, salt)`: a salted injective encoding standing
in for the one-way digest (only the compare interface below matters to the
handlers). -/
def bcryptHash (input salt : String) : String := salt ++ "|" ++ input

/-- The salt recorded in a stored bcrypt value. -/
def saltOf (h : String) : String := String.mk (h.data.takeWhile (fun c => c != '|'))

/-- Model of `bcrypt.compare(input, h)`: re-hash `input` under the salt parsed
out of `h` and test equality. -/
def bcryptCompare (input h : String) : Bool := h == bcryptHash input (saltOf h)

theorem strExt (a b : String) (h : a.data = b.data) : a = b := by
  cases a
  cases b
  simp only at h
  rw [h]

theorem takeWhile_salt (l1 l2 : List Char) (h : ∀ c ∈ l1, c ≠ '|') :
    (l1 ++ '|' :: l2).takeWhile (fun c => c != '|') = l1 := by
  induction l1 with
  | nil => simp [List.takeWhile_cons]
  | cons c rest ih =>
      have hc : c ≠ '|' := h c (List.mem_cons_self c rest)
      simp only [List.cons_append, List.takeWhile_cons, bne_iff_ne, ne_eq, hc,
        not_false_eq_true, if_true, List.cons.injEq, true_and]
      exact ih (fun x hx => h x (List.mem_cons_of_mem c hx))

theorem bcryptCompare_hash (input s salt : String) (hs : ∀ c ∈ salt.data, c ≠ '|') :
    bcryptCompare input (bcryptHash s salt) = (input == s) := by
  have hdata : (bcryptHash s salt).data = salt.data ++ '|' :: s.data := by
    simp [bcryptHash, String.data_append]
  have hsalt : saltOf (bcryptHash s salt) = salt := by
    rw [saltOf, hdata, takeWhile_salt salt.data s.data hs, Storage.strMk_data]
  rw [bcryptCompare, hsalt]
  by_cases h : input = s
  · subst h
    simp
  · have hne : bcryptHash s salt ≠ bcryptHash input salt := by
      intro he
      apply h
      have hd := congrArg String.data he
      have hdata2 : (bcryptHash input salt).data = salt.data ++ '|' :: input.data := by
        simp [bcryptHash, String.data_append]
      rw [hdata, hdata2] at hd
      have hd2 := List.append_cancel_left hd
      injection hd2 with _ hd3
      exact strExt input s hd3.symm
    have e1 : (bcryptHash s salt == bcryptHash input salt) = false :=
      beq_eq_false_iff_ne.mpr hne
    have e2 : (input == s) = false := beq_eq_false_iff_ne.mpr h
    rw [e1, e2]

/-- Character class `[A-Za-z0-9._%+-]` of the register handler's email regex. -/
def emailLocalChar (c : Char) : Bool :=
  c.isAlphanum || c = '.' || c = '_' || c = '%' || c = '+' || c = '-'

/-- Character class `[A-Za-z0-9.-]`. -/
def emailDomainChar (c : Char) : Bool := c.isAlphanum || c = '.' || c = '-'

/-- Model of the register handler's email regex
`^[A-Za-z0-9._%+-]+@[A-Za-z0-9.-]+\.[A-Za-z]{2,}$`: the string splits at its
single `@` (neither class admits `@`); the part after the last dot must be at
least two letters, preceded by a dot, preceded by a non-empty domain. -/
def emailValid (s : String) : Bool :=
  match s.data.splitOn '@' with
  | [l, r] =>
      (!l.isEmpty && l.all emailLocalChar) &&
      (let rr := r.reverse
       let tR := rr.takeWhile (fun c => c.isAlpha)
       let rest := rr.drop tR.length
       decide (2 ≤ tR.length) &&
         match rest with
         | '.' :: dR => !dR.isEmpty && dR.all emailDomainChar
         | _ => false)
  | _ => false

/-- Model of `JSON.stringify` applied to the string-typed `decryptionKey`
field: the JSON quoted rendering (the keys in use need no escaping). -/
def jsonQuote (s : String) : String := "\"" ++ s ++ "\""

/-- The `aadhaar_recovery` row (stored salted hashes plus quota state). -/
structure RecoveryRecord where
  encrypted_name : String
  encrypted_aadhaar_number : String
  encrypted_dob : Option String
  encrypted_decryption_key : String
  salt : String
  recovery_attempts : Nat
  last_recovery_attempt : Option Nat
deriving Repr, DecidableEq

/-- The `AadhaarRecoveryData` request body of `store-aadhaar-recovery`. -/
structure RegisterRequest where
  userEmail : String
  name : String
  aadhaarNumber : String
  dob : Option String
  decryptionKey : String
deriving Repr, DecidableEq

/-- The `VerificationRequest` body of `verify-aadhaar-recovery`. -/
structure VerifyRequest where
  userEmail : String
  name : String
  aadhaarNumber : String
  dob : Option String
deriving Repr, DecidableEq

/-- Outcome of a verify call: the success response (carrying what
`sendRecoveryEmail` is given: the stored `encrypted_decryption_key` and the
salt) or the 400 response with its error message. -/
inductive VerifyOutcome where
  | success (emailedKey : String) (emailedSalt : String)
  | failure (message : String)
deriving Repr, DecidableEq

/-- Thrown when a required request field is missing (JS falsiness = ""). -/
def msgMissingFields : String := "Missing required fields"

/-- Thrown when no row exists for the subject. -/
def msgNoRecovery : String := "No recovery data found for this email"

/-- The rate-limit rejection. -/
def msgRateLimited : String := "Too many recovery attempts. Please try again after 24 hours."

/-- Rejection of a malformed email at registration. -/
def msgInvalidEmail : String := "Invalid email format"

/-- Rejection of a malformed Aadhaar number at registration. -/
def msgInvalidAadhaar : String := "Invalid Aadhaar number format"

/-- The mismatch failure, carrying the remaining-attempts hint. -/
def verifFailedMsg (newAttempts : Nat) : String :=
  "Verification failed. " ++ toString ((5 : Int) - newAttempts) ++ " attempts remaining."

/-- The `store-aadhaar-recovery` handler: validate, derive a fresh per-subject
salt (`bcrypt.genSalt`, passed explicitly), hash each attribute and
`JSON.stringify(decryptionKey)` under it, and upsert the row with the attempt
counter reset (an empty supplied dob is falsy and stores no dob hash). -/
def register (req : RegisterRequest) (freshSalt : String) : Except String RecoveryRecord :=
  if req.userEmail = "" ∨ req.name = "" ∨ req.aadhaarNumber = "" ∨ req.decryptionKey = "" then
    .error msgMissingFields
  else if ¬ emailValid req.userEmail then .error msgInvalidEmail
  else if ¬ digits12 (stripSpaces req.aadhaarNumber) then .error msgInvalidAadhaar
  else
    .ok { encrypted_name := bcryptHash (jsTrim (jsLower req.name)) freshSalt
        , encrypted_aadhaar_number := bcryptHash (stripSpaces req.aadhaarNumber) freshSalt
        , encrypted_dob :=
            req.dob.bind (fun d => if d = "" then none else some (bcryptHash d freshSalt))
        , encrypted_decryption_key := bcryptHash (jsonQuote req.decryptionKey) freshSalt
        , salt := freshSalt
        , recovery_attempts := 0
        , last_recovery_attempt := none }

/-- Has less than 24 hours elapsed since the last attempt? The handler
computes `daysSinceLastAttempt` as the millisecond difference over 86400000,
defaulting to a full day when no attempt is recorded, and compares it with 1;
`within24h` is the `< 1` side (its negation is the `>= 1` reset side). -/
def within24h (last : Option Nat) (now : Nat) : Bool :=
  match last with
  | none => false
  | some t => now - t < 86400000

/-- The `verify-aadhaar-recovery` handler. Returns the outcome together with
the row as left in the database. Order of business, as in the source: reject
missing fields; 404 when no row; reject when the stored counter has reached 5
within 24h of the last attempt (row untouched — the throw precedes the
update); otherwise reset the counter if a day has passed, compare the salted
hashes (date of birth only when both a stored hash and a non-empty supplied
dob exist), write the incremented counter and the attempt timestamp, and on a
full match email the stored `encrypted_decryption_key` plus salt and reset the
counter to zero. -/
def verify (rec? : Option RecoveryRecord) (req : VerifyRequest) (now : Nat) :
    VerifyOutcome × Option RecoveryRecord :=
  if req.userEmail = "" ∨ req.name = "" ∨ req.aadhaarNumber = "" then
    (.failure msgMissingFields, rec?)
  else
    match rec? with
    | none => (.failure msgNoRecovery, none)
    | some r =>
        if 5 ≤ r.recovery_attempts ∧ within24h r.last_recovery_attempt now = true then
          (.failure msgRateLimited, some r)
        else
          let currentAttempts :=
            if within24h r.last_recovery_attempt now = true then r.recovery_attempts else 0
          let nameMatch := bcryptCompare (jsTrim (jsLower req.name)) r.encrypted_name
          let aadhaarMatch := bcryptCompare (stripSpaces req.aadhaarNumber) r.encrypted_aadhaar_number
          let dobMatch :=
            match r.encrypted_dob, req.dob with
            | some h, some d => if d = "" then true else bcryptCompare d h
            | _, _ => true
          let newAttempts := currentAttempts + 1
          if nameMatch && aadhaarMatch && dobMatch then
            (.success r.encrypted_decryption_key r.salt,
             some { r with recovery_attempts := 0, last_recovery_attempt := none })
          else
            (.failure (verifFailedMsg newAttempts),
             some { r with recovery_attempts := newAttempts, last_recovery_attempt := some now })

theorem verify_failed_step (r : RecoveryRecord) (req : VerifyRequest) (now i : Nat)
    (hue : req.userEmail ≠ "") (hn : req.name ≠ "") (ha : req.aadhaarNumber ≠ "")
    (hnm : bcryptCompare (jsTrim (jsLower req.name)) r.encrypted_name = false)
    (hcur : (if within24h r.last_recovery_attempt now = true then r.recovery_attempts else 0) = i)
    (hok : r.recovery_attempts < 5 ∨ within24h r.last_recovery_attempt now = false) :
    verify (some r) req now =
      (.failure (verifFailedMsg (i + 1)),
       some { r with recovery_attempts := i + 1, last_recovery_attempt := some now }) := by
  rw [verify]
  rw [if_neg (by push_neg; exact ⟨hue, hn, ha⟩)]
  rw [if_neg (by
    rintro ⟨h5, hw⟩
    rcases hok with h | h
    · omega
    · rw [h] at hw
      exact Bool.false_ne_true hw)]
  simp only [hnm, Bool.false_and, Bool.false_eq_true, if_false, hcur]

/-- The request used for a mismatching attempt in the demonstrations. -/
def qWrong : VerifyRequest := ⟨"u@test.co", "Wrong Name", "999988887777", none⟩

/-- The request carrying the correct registered attributes. -/
def qRight : VerifyRequest := ⟨"u@test.co", "Jane Roe", "999988887777", none⟩

/-- The registration request of the demonstrations. -/
def regC1 : RegisterRequest := ⟨"u@test.co", "Jane Roe", "9999 8888 7777", none, "SECRETKEY"⟩

/-- The row `register regC1 "s1"` produces. -/
def recC1 : RecoveryRecord := ⟨bcryptHash "jane roe" "s1", bcryptHash "999988887777" "s1",
  none, bcryptHash (jsonQuote "SECRETKEY") "s1", "s1", 0, none⟩

/-- C1 (code bug): a fully matching verify after registration succeeds and
resets the stored attempt counter to zero, but what the success path hands to
`sendRecoveryEmail` is the stored `encrypted_decryption_key` — the bcrypt
digest of `JSON.stringify(recoveryKey)`, a one-way hash — not the registered
recovery key itself, even though the success message tells the user the
decryption key has been emailed. -/
theorem c1_success_emails_hash_not_key :
    register regC1 "s1" = .ok recC1 ∧
    verify (some recC1) qRight 1000 =
      (.success (bcryptHash (jsonQuote "SECRETKEY") "s1") "s1",
       some { recC1 with recovery_attempts := 0, last_recovery_attempt := none }) ∧
    recC1.encrypted_decryption_key = bcryptHash (jsonQuote "SECRETKEY") "s1" ∧
    bcryptHash (jsonQuote "SECRETKEY") "s1" ≠ "SECRETKEY" :=
  ⟨rfl, rfl, rfl, by decide⟩

/-- The registration request with a date of birth, for C5. -/
def regC5 : RegisterRequest := ⟨"a@b.co", "John Doe", "1234 5678 9012", some "01/01/1990", "KEY5"⟩

/-- The row `register regC5 "s5"` produces (note the stored dob hash). -/
def recC5 : RecoveryRecord := ⟨bcryptHash "john doe" "s5", bcryptHash "123456789012" "s5",
  some (bcryptHash "01/01/1990" "s5"), bcryptHash (jsonQuote "KEY5") "s5", "s5", 0, none⟩

/-- C5 (code bug): the dob check is applied only when the client also supplies
a dob (`recoveryData.encrypted_dob && dob`), so a request that simply omits
the date of birth verifies successfully against a record that has a stored
dob hash — matching name and document number alone suffice, contradicting the
claim (and the code's own comment, which promises the default only "if no DOB
stored"). -/
theorem c5_dob_check_bypassed_when_omitted :
    register regC5 "s5" = .ok recC5 ∧
    recC5.encrypted_dob = some (bcryptHash "01/01/1990" "s5") ∧
    (verify (some recC5) ⟨"a@b.co", "John Doe", "123456789012", none⟩ 777).1 =
      .success (bcryptHash (jsonQuote "KEY5") "s5") "s5" :=
  ⟨rfl, rfl, rfl⟩

/-- C2: starting from a fresh registration, five verify calls with a
mismatching name, each within 24 hours of the previous attempt, drive the
stored counter to 5; a sixth call less than 24 hours after the fifth — with
any attributes, the correct ones included — is rejected as rate-limited with
the row untouched; and, in general, while a record is throttled (counter at 5
within 24 hours of the last attempt) no verify call whatsoever can succeed. -/
theorem c2_rate_limited_after_five_failures
    (regReq : RegisterRequest) (salt : String) (r0 : RecoveryRecord)
    (q1 q2 q3 q4 q5 q6 : VerifyRequest) (t1 t2 t3 t4 t5 t6 : Nat)
    (hreg : register regReq salt = .ok r0)
    (hsalt : ∀ c ∈ salt.data, c ≠ '|')
    (hne1 : q1.userEmail ≠ "" ∧ q1.name ≠ "" ∧ q1.aadhaarNumber ≠ "")
    (hne2 : q2.userEmail ≠ "" ∧ q2.name ≠ "" ∧ q2.aadhaarNumber ≠ "")
    (hne3 : q3.userEmail ≠ "" ∧ q3.name ≠ "" ∧ q3.aadhaarNumber ≠ "")
    (hne4 : q4.userEmail ≠ "" ∧ q4.name ≠ "" ∧ q4.aadhaarNumber ≠ "")
    (hne5 : q5.userEmail ≠ "" ∧ q5.name ≠ "" ∧ q5.aadhaarNumber ≠ "")
    (hne6 : q6.userEmail ≠ "" ∧ q6.name ≠ "" ∧ q6.aadhaarNumber ≠ "")
    (hw1 : jsTrim (jsLower q1.name) ≠ jsTrim (jsLower regReq.name))
    (hw2 : jsTrim (jsLower q2.name) ≠ jsTrim (jsLower regReq.name))
    (hw3 : jsTrim (jsLower q3.name) ≠ jsTrim (jsLower regReq.name))
    (hw4 : jsTrim (jsLower q4.name) ≠ jsTrim (jsLower regReq.name))
    (hw5 : jsTrim (jsLower q5.name) ≠ jsTrim (jsLower regReq.name))
    (hg2 : t2 - t1 < 86400000) (hg3 : t3 - t2 < 86400000)
    (hg4 : t4 - t3 < 86400000) (hg5 : t5 - t4 < 86400000)
    (hg6 : t6 - t5 < 86400000) :
    ((verify ((verify ((verify ((verify ((verify (some r0) q1 t1).2) q2 t2).2)
        q3 t3).2) q4 t4).2) q5 t5).2 =
      some { r0 with recovery_attempts := 5, last_recovery_attempt := some t5 }) ∧
    (verify (some { r0 with recovery_attempts := 5, last_recovery_attempt := some t5 }) q6 t6 =
      (.failure msgRateLimited,
       some { r0 with recovery_attempts := 5, last_recovery_attempt := some t5 })) ∧
    (∀ (r : RecoveryRecord) (req : VerifyRequest) (now t : Nat) (key ksalt : String),
      5 ≤ r.recovery_attempts → r.last_recovery_attempt = some t → now - t < 86400000 →
      (verify (some r) req now).1 ≠ .success key ksalt) := by
  have hfe : r0.encrypted_name = bcryptHash (jsTrim (jsLower regReq.name)) salt ∧
      r0.recovery_attempts = 0 ∧ r0.last_recovery_attempt = none := by
    rw [register] at hreg
    split_ifs at hreg
    injection hreg with h2
    rw [← h2]
    exact ⟨rfl, rfl, rfl⟩
  have hcmp : ∀ q : VerifyRequest, jsTrim (jsLower q.name) ≠ jsTrim (jsLower regReq.name) →
      bcryptCompare (jsTrim (jsLower q.name)) r0.encrypted_name = false := by
    intro q hq
    rw [hfe.1, bcryptCompare_hash _ _ _ hsalt]
    exact beq_eq_false_iff_ne.mpr hq
  have step1 : verify (some r0) q1 t1 =
      (.failure (verifFailedMsg 1),
       some { r0 with recovery_attempts := 1, last_recovery_attempt := some t1 }) := by
    have h := verify_failed_step r0 q1 t1 0 hne1.1 hne1.2.1 hne1.2.2 (hcmp q1 hw1)
      (by rw [hfe.2.2]; simp [within24h]) (Or.inl (by omega))
    simpa using h
  have stepk : ∀ (i tprev tcur : Nat) (q : VerifyRequest),
      q.userEmail ≠ "" → q.name ≠ "" → q.aadhaarNumber ≠ "" →
      jsTrim (jsLower q.name) ≠ jsTrim (jsLower regReq.name) →
      tcur - tprev < 86400000 → i < 5 →
      verify (some { r0 with recovery_attempts := i, last_recovery_attempt := some tprev }) q tcur =
        (.failure (verifFailedMsg (i + 1)),
         some { r0 with recovery_attempts := i + 1, last_recovery_attempt := some tcur }) := by
    intro i tprev tcur q hue hn ha hw hgap hi
    have hwithin : within24h (some tprev) tcur = true := by
      simp [within24h, hgap]
    have h := verify_failed_step
      { r0 with recovery_attempts := i, last_recovery_attempt := some tprev } q tcur i
      hue hn ha (hcmp q hw) (by simp [hwithin]) (Or.inl (by simp [hi]))
    simpa using h
  have step2 := stepk 1 t1 t2 q2 hne2.1 hne2.2.1 hne2.2.2 hw2 hg2 (by omega)
  have step3 := stepk 2 t2 t3 q3 hne3.1 hne3.2.1 hne3.2.2 hw3 hg3 (by omega)
  have step4 := stepk 3 t3 t4 q4 hne4.1 hne4.2.1 hne4.2.2 hw4 hg4 (by omega)
  have step5 := stepk 4 t4 t5 q5 hne5.1 hne5.2.1 hne5.2.2 hw5 hg5 (by omega)
  refine ⟨?_, ?_, ?_⟩
  · rw [step1]
    simp only
    rw [step2]
    simp only
    rw [step3]
    simp only
    rw [step4]
    simp only
    rw [step5]
  · rw [verify]
    rw [if_neg (by push_neg; exact hne6)]
    rw [if_pos ⟨by simp, by simp [within24h, hg6]⟩]
  · intro r req now t key ksalt h5 hlast hgap hsucc
    rw [verify] at hsucc
    by_cases hmiss : req.userEmail = "" ∨ req.name = "" ∨ req.aadhaarNumber = ""
    · rw [if_pos hmiss] at hsucc
      exact VerifyOutcome.noConfusion hsucc
    · rw [if_neg hmiss] at hsucc
      rw [if_pos ⟨h5, by simp [within24h, hlast, hgap]⟩] at hsucc
      exact VerifyOutcome.noConfusion hsucc

/-- Witness for C2: the six-call scenario run concretely — five wrong-name
attempts at times 0..4 against the registration of `regC1`, then the sixth
call with the correct attributes at time 5 is rejected as rate-limited. -/
theorem c2_witness :
    verify (some { recC1 with recovery_attempts := 5, last_recovery_attempt := some 4 })
        qRight 5 =
      (.failure msgRateLimited,
       some { recC1 with recovery_attempts := 5, last_recovery_attempt := some 4 }) :=
  (c2_rate_limited_after_five_failures regC1 "s1" recC1 qWrong qWrong qWrong qWrong qWrong
    qRight 0 1 2 3 4 5 rfl (by decide)
    (by refine ⟨?_, ?_, ?_⟩ <;> decide) (by refine ⟨?_, ?_, ?_⟩ <;> decide)
    (by refine ⟨?_, ?_, ?_⟩ <;> decide) (by refine ⟨?_, ?_, ?_⟩ <;> decide)
    (by refine ⟨?_, ?_, ?_⟩ <;> decide) (by refine ⟨?_, ?_, ?_⟩ <;> decide)
    (by decide) (by decide) (by decide) (by decide) (by decide)
    (by decide) (by decide) (by decide) (by decide) (by decide)).2.1

end Recovery

/-! ## The document extractor (`src/lib/aadhaarService.ts`)

The extraction pipeline is modelled from the text-extraction stage onward
(PDF loading, integrity checks and page-walking are external I/O). The JS
regex engine is an explicit parameter: for each fixed pattern of
`AADHAAR_PATTERNS` it yields the candidate strings the source reads off the
match objects — for the id-number and name loops (`matchAll`) the captured
group when the pattern has one, else the whole match, in order; for the dob
and gender loops (`String.match` with a global regex) the array of whole
matches, of which the source reads index 1. The field validators
(twelve-digit test, name cleaning, calendar check, gender normalization) are
embedded concretely. -/

namespace Aadhaar

/-- The `AadhaarDetails` interface. -/
structure AadhaarDetails where
  name : String
  aadhaarNumber : String
  dob : Option String
  gender : Option String
deriving Repr, DecidableEq

/-- The external regex engine, as the source consumes it. -/
structure RegexEngine where
  numberMatches : Nat → String → List String
  nameMatches : Nat → String → List String
  dobMatches : Nat → String → List String
  genderMatches : Nat → String → List String

/-- Model of `number.replace(/[\s\-]/g, '')`. -/
def stripSpaceHyphen (s : String) : String :=
  String.mk (s.data.filter (fun c => !(isWsChar c || c = '-')))

/-- The id-number loop of `parseAadhaarDetailsEnhanced`: over the four
patterns in order, over each candidate in order, clean and keep the first
that is exactly twelve digits. -/
def firstValidNumber (m : RegexEngine) (text : String) : Option String :=
  [0, 1, 2, 3].findSome? (fun i =>
    (m.numberMatches i text).findSome? (fun cand =>
      let clean := stripSpaceHyphen cand
      if digits12 clean then some clean else none))

/-- The JS `\w` class. -/
def wordChar (c : Char) : Bool := c.isAlphanum || c = '_'

/-- Collapse maximal whitespace runs to single spaces
(`replace(/\s+/g, ' ')`). -/
def collapseWsAux : Bool → List Char → List Char
  | _, [] => []
  | prevWs, c :: rest =>
      if isWsChar c then
        if prevWs then collapseWsAux true rest
        else ' ' :: collapseWsAux true rest
      else c :: collapseWsAux false rest

/-- Entry point of the whitespace-collapsing pass. -/
def collapseWs (cs : List Char) : List Char := collapseWsAux false cs

/-- Embedding of `AadhaarService.cleanAndValidateName`: trim, collapse whitespace, strip
characters outside `[\w\s]`, uppercase; accept only `^[A-Z\s]{3,50}$` free of
the institutional keywords and with at most five space-separated words. -/
def cleanAndValidateName (name : String) : Option String :=
  let cleaned := ((collapseWs (trimList name.data)).filter
    (fun c => wordChar c || isWsChar c)).map Char.toUpper
  let ok := decide (3 ≤ cleaned.length) && decide (cleaned.length ≤ 50) &&
    cleaned.all (fun c => ('A' ≤ c && c ≤ 'Z') || isWsChar c) &&
    !(hasSub cleaned "AADHAAR".data) && !(hasSub cleaned "GOVERNMENT".data) &&
    decide (cleaned.count ' ' + 1 ≤ 5)
  if ok then some (String.mk cleaned) else none

/-- The name loop: over the three patterns, over each captured group, the
first candidate whose trimmed length exceeds two and that survives
`cleanAndValidateName`. -/
def firstValidName (m : RegexEngine) (text : String) : Option String :=
  [0, 1, 2].findSome? (fun i =>
    (m.nameMatches i text).findSome? (fun cand =>
      if 2 < (jsTrim cand).length then cleanAndValidateName cand else none))

/-- Date separators `[\/\-]`. -/
def isSep (c : Char) : Bool := c = '/' || c = '-'

/-- Embedding of `AadhaarService.validateAndFormatDate`: a `dd?mm?yyyy` or `dd?mm?yy` shape
(separators `/` or `-`), two-digit years prefixed with `19`, and the ranges
day 1–31, month 1–12, year 1900–currentYear; the result is rendered
`day/month/fullYear`. -/
def validateAndFormatDate (curYear : Nat) (dateStr : String) : Option String :=
  match trimList dateStr.data with
  | [d1, d2, s1, m1, m2, s2, y1, y2, y3, y4] =>
      if ([d1, d2, m1, m2, y1, y2, y3, y4].all Char.isDigit) && isSep s1 && isSep s2 then
        let day := 10 * (d1.toNat - 48) + (d2.toNat - 48)
        let month := 10 * (m1.toNat - 48) + (m2.toNat - 48)
        let year := 1000 * (y1.toNat - 48) + 100 * (y2.toNat - 48) +
          10 * (y3.toNat - 48) + (y4.toNat - 48)
        if decide (1 ≤ day) && decide (day ≤ 31) && decide (1 ≤ month) &&
            decide (month ≤ 12) && decide (1900 ≤ year) && decide (year ≤ curYear) then
          some (String.mk [d1, d2, '/', m1, m2, '/', y1, y2, y3, y4])
        else none
      else none
  | [d1, d2, s1, m1, m2, s2, y1, y2] =>
      if ([d1, d2, m1, m2, y1, y2].all Char.isDigit) && isSep s1 && isSep s2 then
        let day := 10 * (d1.toNat - 48) + (d2.toNat - 48)
        let month := 10 * (m1.toNat - 48) + (m2.toNat - 48)
        let year := 1900 + 10 * (y1.toNat - 48) + (y2.toNat - 48)
        if decide (1 ≤ day) && decide (day ≤ 31) && decide (1 ≤ month) &&
            decide (month ≤ 12) && decide (1900 ≤ year) && decide (year ≤ curYear) then
          some (String.mk [d1, d2, '/', m1, m2, '/', '1', '9', y1, y2])
        else none
      else none
  | _ => none

/-- Embedding of `AadhaarService.normalizeGender` (JS `&&` binds tighter than `||`). -/
def normalizeGender (g : String) : Option String :=
  let n := jsTrim (jsLower g)
  if (hasSub n.data "male".data && !(hasSub n.data "female".data)) || n = "m" then some "Male"
  else if hasSub n.data "female".data || n = "f" then some "Female"
  else if hasSub n.data "पुरुष".data then some "Male"
  else if hasSub n.data "महिला".data then some "Female"
  else if hasSub n.data "other".data || hasSub n.data "अन्य".data then some "Others"
  else none

/-- The dob loop: `text.match(pattern)` with a global regex yields the array
of whole matches, and the source reads `match[1]` — the second match — then
validates it. -/
def firstDob (m : RegexEngine) (curYear : Nat) (text : String) : Option String :=
  [0, 1, 2].findSome? (fun i =>
    match (m.dobMatches i text)[1]? with
    | some s => validateAndFormatDate curYear s
    | none => none)

/-- The gender loop (same `match[1]` reading as the dob loop). -/
def firstGender (m : RegexEngine) (text : String) : Option String :=
  [0, 1].findSome? (fun i =>
    match (m.genderMatches i text)[1]? with
    | some s => normalizeGender s
    | none => none)

/-- Embedding of `AadhaarService.parseAadhaarDetailsEnhanced`: assemble the record from the
four first-match-wins loops; a field whose loop finds nothing stays `''`
(required fields) or absent (optional fields). -/
def parseAadhaarDetailsEnhanced (m : RegexEngine) (curYear : Nat) (text : String) :
    AadhaarDetails :=
  { name := (firstValidName m text).getD ""
  , aadhaarNumber := (firstValidNumber m text).getD ""
  , dob := firstDob m curYear text
  , gender := firstGender m text }

/-- The `AADHAAR_KEYWORDS` list. -/
def AADHAAR_KEYWORDS : List String :=
  ["aadhaar", "आधार", "uidai", "unique identification",
   "government of india", "भारत सरकार", "uid", "enrollment"]

/-- Embedding of `AadhaarService.isAadhaarDocument`: at least one keyword occurs in the
lowercased text and some id-number pattern matches (`pattern.test`); the
`hasUidaiElements` computation of the source does not figure in its result. -/
def isAadhaarDocument (m : RegexEngine) (text : String) : Bool :=
  let lowerText := jsLower text
  let keywordMatches :=
    (AADHAAR_KEYWORDS.filter (fun kw => hasSub lowerText.data (jsLower kw).data)).length
  let hasAadhaarNumber := [0, 1, 2, 3].any (fun i => !(m.numberMatches i text).isEmpty)
  decide (1 ≤ keywordMatches) && hasAadhaarNumber

/-- The document-recognition rejection of `extractAadhaarFromPDF`. -/
def msgNotAadhaar : String :=
  "This does not appear to be a valid Aadhaar document. Please upload an official Aadhaar PDF from UIDAI."

/-- The required-details rejection. -/
def msgMissingRequired : String :=
  "Could not extract required Aadhaar details (Name and Aadhaar Number). Please ensure the PDF is clear and readable."

/-- Rejection of `validateExtractedDetails` on the number. -/
def msgBadNumberFormat : String := "Invalid Aadhaar number format extracted"

/-- Rejection of `validateExtractedDetails` on the name. -/
def msgBadNameFormat : String := "Invalid name format extracted"

/-- Embedding of `AadhaarService.extractAadhaarFromPDF` from the text-extraction stage
onward: reject non-Aadhaar documents, parse, reject when a required field
stayed empty (JS falsiness), then `validateExtractedDetails`. -/
def extractAadhaarFromText (m : RegexEngine) (curYear : Nat) (text : String) :
    Except String AadhaarDetails :=
  if ¬ isAadhaarDocument m text then .error msgNotAadhaar
  else
    let details := parseAadhaarDetailsEnhanced m curYear text
    if details.name = "" ∨ details.aadhaarNumber = "" then .error msgMissingRequired
    else if ¬ digits12 details.aadhaarNumber then .error msgBadNumberFormat
    else if details.name.length < 2 ∨ 50 < details.name.length then .error msgBadNameFormat
    else .ok details

/-- C9 (amended): when no candidate of any id-number pattern cleans to a valid
twelve-digit number, extraction always fails — with the generic
document-recognition error when no id-number pattern matched at all, or with
the required-details error otherwise — and extraction never returns a record
whose required name or document-number field is empty or invalid: a returned
record always carries a twelve-digit number and a name of accepted length. -/
theorem c9_extraction_rejects_and_never_guesses :
    (∀ (m : RegexEngine) (y : Nat) (text : String),
      (∀ i ∈ [0, 1, 2, 3], ∀ cand ∈ m.numberMatches i text,
        digits12 (stripSpaceHyphen cand) = false) →
      extractAadhaarFromText m y text = .error msgNotAadhaar ∨
      extractAadhaarFromText m y text = .error msgMissingRequired) ∧
    (∀ (m : RegexEngine) (y : Nat) (text : String) (d : AadhaarDetails),
      extractAadhaarFromText m y text = .ok d →
      d.name ≠ "" ∧ digits12 d.aadhaarNumber = true ∧
      2 ≤ d.name.length ∧ d.name.length ≤ 50) := by
  constructor
  · intro m y text hno
    by_cases hdoc : isAadhaarDocument m text
    · right
      have hnum : firstValidNumber m text = none := by
        rw [firstValidNumber, List.findSome?_eq_none_iff]
        intro i hi
        rw [List.findSome?_eq_none_iff]
        intro cand hcand
        dsimp only
        rw [hno i hi cand hcand]
        rfl
      rw [extractAadhaarFromText, if_neg (by simpa using hdoc)]
      have hnumfield : (parseAadhaarDetailsEnhanced m y text).aadhaarNumber = "" := by
        rw [parseAadhaarDetailsEnhanced]
        simp [hnum]
      rw [if_pos (Or.inr hnumfield)]
    · left
      rw [extractAadhaarFromText, if_pos (by simpa using hdoc)]
  · intro m y text d hok
    rw [extractAadhaarFromText] at hok
    dsimp only at hok
    split_ifs at hok with h1 h2 h3 h4
    injection hok with h5
    subst h5
    push_neg at h2 h4
    refine ⟨h2.1, ?_, ?_, ?_⟩
    · simpa using h3
    · omega
    · omega

/-- The regex engine's behaviour on the concrete witness text "aadhaar uid
form": no pattern of any family has a match (the text has no digits, no
`Name:` line, no dob, no gender token). -/
def engineEmpty : RegexEngine := ⟨fun _ _ => [], fun _ _ => [], fun _ _ => [], fun _ _ => []⟩

/-- Witness for C9: both halves applied at the concrete engine and text. -/
theorem c9_witness :
    (extractAadhaarFromText engineEmpty 2026 "aadhaar uid form" = .error msgNotAadhaar ∨
     extractAadhaarFromText engineEmpty 2026 "aadhaar uid form" = .error msgMissingRequired) :=
  c9_extraction_rejects_and_never_guesses.1 engineEmpty 2026 "aadhaar uid form" (by decide)

/-- C9 counterexample: at a text containing Aadhaar keywords but no
recognizable id number (the real regex engine finds no match of any id-number
pattern in a digit-free text), the pipeline fails with the generic
document-recognition error — an error that does not name the missing
document-number field, refuting "fails with an ExtractionError naming the
field it could not locate". -/
theorem c9_counterexample_error_names_no_field :
    extractAadhaarFromText engineEmpty 2026 "aadhaar uid form" = .error msgNotAadhaar ∧
    hasSub msgNotAadhaar.data "Number".data = false ∧
    hasSub msgMissingRequired.data "Number".data = true :=
  ⟨rfl, by decide, by decide⟩

end Aadhaar
